import Mathlib

/-!
Verification of the rexlib shallow XML tokenizer and token model.

The development embeds, over `List Char`:
  * the REX shallow-parsing expression of `rex.py` (`XML_SPE`), piece by
    piece, as deterministic anchored matchers returning the number of
    characters consumed (the regular expression is one-unambiguous, so
    greedy first-alternative matching coincides with Python `re` semantics
    on these patterns);
  * the token classes of `tokens.py` with their constructors, field
    setters and reserialization templates;
  * the attribute / pseudo-attribute store (`AttributeDict`, PI span
    tracking);
  * the tokenizer `tokenize` and the filters `wellformedness_check` and
    `expand_empty_tags` of `token_filters.py`.
-/

set_option maxRecDepth 20000

namespace Rexlib

/-- Characters are handled as explicit lists, mirroring Python string slicing. -/
abbrev Str := List Char

/-- The single-quote character, written numerically. -/
def squote : Char := Char.ofNat 39

/-- `S = "[ \n\t\r]+"` character set of rex.py (one char). -/
def isS (c : Char) : Bool :=
  decide (c = ' ' ∨ c = '\n' ∨ c = '\t' ∨ c = '\r')

/-- Python `str` whitespace relevant to `strip`/`split`/`\s`:
` \t\n\r\x0b\x0c` (ASCII range). -/
def isPySpace (c : Char) : Bool :=
  decide (c = ' ' ∨ c = '\t' ∨ c = '\n' ∨ c = '\r' ∨ c = Char.ofNat 11 ∨ c = Char.ofNat 12)

/-- `NameStrt = "[A-Za-z_:]|[^\x00-\x7F]"`. -/
def isNameStrt (c : Char) : Bool :=
  decide (('A' ≤ c ∧ c ≤ 'Z') ∨ ('a' ≤ c ∧ c ≤ 'z') ∨ c = '_' ∨ c = ':' ∨ 0x7F < c.toNat)

/-- `NameChar = "[A-Za-z0-9_:.-]|[^\x00-\x7F]"`. -/
def isNameChar (c : Char) : Bool :=
  decide (('A' ≤ c ∧ c ≤ 'Z') ∨ ('a' ≤ c ∧ c ≤ 'z') ∨ ('0' ≤ c ∧ c ≤ '9') ∨
    c = '_' ∨ c = ':' ∨ c = '.' ∨ c = '-' ∨ 0x7F < c.toNat)

/-- Length of the maximal prefix whose characters satisfy `p`
(the consumption of a greedy `[class]*`). -/
def cnt (p : Char → Bool) : Str → Nat
  | [] => 0
  | c :: cs => if p c then cnt p cs + 1 else 0

/-- Python `str.lstrip()`. -/
def pyLstrip (l : Str) : Str := l.dropWhile isPySpace

/-- Python `str.rstrip()`. -/
def pyRstrip (l : Str) : Str := (l.reverse.dropWhile isPySpace).reverse

/-- Python `str.strip()`. -/
def pyStrip (l : Str) : Str := pyRstrip (pyLstrip l)

/-- Python `s[-2]` as an option (`none` when fewer than two characters). -/
def secondLast (l : Str) : Option Char := l.dropLast.getLast?

/-- Python `s.endswith('?>')`. -/
def endsQM (l : Str) : Bool :=
  match l.reverse with
  | '>' :: '?' :: _ => true
  | _ => false

/-!  ## The REX shallow parsing expression (rex.py)

Each definition is the anchored matcher of the regex piece of the same
name; `some n` means the piece matches consuming exactly `n` characters
(greedy, first matching alternative, as Python `re` behaves on these
one-unambiguous patterns). -/

/-- `Name = NameStrt NameChar*`. -/
def matchName : Str → Option Nat
  | [] => none
  | c :: cs => if isNameStrt c then some (cnt isNameChar cs + 1) else none

/-- `Until2Hyphens = "[^-]*-(?:[^-][^-]*-)*-"`: consume up to and including
the first occurrence of `--`. -/
def until2Hyphens : Str → Option Nat
  | '-' :: '-' :: _ => some 2
  | _ :: cs => (until2Hyphens cs).map (· + 1)
  | [] => none

/-- `CommentCE = Until2Hyphens ">?"`. -/
def commentCE (cs : Str) : Option Nat :=
  (until2Hyphens cs).map fun n =>
    n + (if (cs.drop n).head? = some '>' then 1 else 0)

/-- `UntilRSBs = "[^\]]*](?:[^\]]+])*]+"`: consume up to the end of the
first run of at least two `]` characters. -/
def untilRSBs : Str → Option Nat
  | ']' :: ']' :: rest => some (cnt (· = ']') rest + 2)
  | _ :: cs => (untilRSBs cs).map (· + 1)
  | [] => none

/-- Continuation loop of `CDATA_CE` after an `UntilRSBs`:
`(?:[^\]>]UntilRSBs)*>`. -/
def cdataAux : Nat → Str → Option Nat
  | _, [] => none
  | 0, _ => none
  | fuel + 1, c :: cs =>
    if c = '>' then some 1
    else if c = ']' then none
    else do
      let n ← untilRSBs cs
      let m ← cdataAux fuel (cs.drop n)
      some (1 + n + m)

/-- `CDATA_CE = UntilRSBs (?:[^\]>]UntilRSBs)* ">"`. -/
def cdataCE (cs : Str) : Option Nat := do
  let n ← untilRSBs cs
  let m ← cdataAux (cs.length + 1) (cs.drop n)
  some (n + m)

/-- `UntilQMs = "[^?]*\?+"`. -/
def untilQMs (cs : Str) : Option Nat :=
  let a := cnt (· ≠ '?') cs
  let q := cnt (· = '?') (cs.drop a)
  if q = 0 then none else some (a + q)

/-- Continuation loop of the long branch of `PI_Tail` after an `UntilQMs`:
`(?:[^>?]UntilQMs)*>`. -/
def piAux : Nat → Str → Option Nat
  | _, [] => none
  | 0, _ => none
  | fuel + 1, c :: cs =>
    if c = '>' then some 1
    else if c = '?' then none
    else do
      let n ← untilQMs cs
      let m ← piAux fuel (cs.drop n)
      some (1 + n + m)

/-- `PI_Tail = "\?>|" S1 UntilQMs (?:[^>?]UntilQMs)* ">"`. -/
def piTail : Str → Option Nat
  | '?' :: '>' :: _ => some 2
  | c :: cs =>
    if isS c then do
      let n ← untilQMs cs
      let m ← piAux (cs.length + 1) (cs.drop n)
      some (1 + n + m)
    else none
  | [] => none

/-- `PI_CE = Name (?:PI_Tail)?`. -/
def piCE (cs : Str) : Option Nat :=
  (matchName cs).map fun n => n + ((piTail (cs.drop n)).getD 0)

/-- `EndTagCE = Name (?:S)? ">?"`. -/
def endTagCE (cs : Str) : Option Nat :=
  (matchName cs).map fun n =>
    let s := cnt isS (cs.drop n)
    (n + s) + (if (cs.drop (n + s)).head? = some '>' then 1 else 0)

/-- `AttValSE = "\"[^<\"]*\"|'[^<']*'"`. -/
def attValSE : Str → Option Nat
  | c :: cs =>
    if c = '"' then
      let a := cnt (fun d => decide (d ≠ '<' ∧ d ≠ '"')) cs
      if (cs.drop a).head? = some '"' then some (a + 2) else none
    else if c = squote then
      let a := cnt (fun d => decide (d ≠ '<' ∧ d ≠ squote)) cs
      if (cs.drop a).head? = some squote then some (a + 2) else none
    else none
  | [] => none

/-- `QuoteSE = "\"[^\"]*\"|'[^']*'"` (used inside DOCTYPE). -/
def quoteSE : Str → Option Nat
  | c :: cs =>
    if c = '"' then
      let a := cnt (fun d => decide (d ≠ '"')) cs
      if (cs.drop a).head? = some '"' then some (a + 2) else none
    else if c = squote then
      let a := cnt (fun d => decide (d ≠ squote)) cs
      if (cs.drop a).head? = some squote then some (a + 2) else none
    else none
  | [] => none

/-- One anchored match of the attribute pattern
`S Name (?:S)? "=" (?:S)? AttValSE` — the shared body of the `AttRE` regex
and of the attribute group of `ElemTagCE` (rex.py builds both from the same
sub-expressions): the attribute name slice, the value slice with its quote
delimiters, and the total match length (the `attribute` group is the whole
match, leading whitespace included). -/
structure AttAnch where
  name : Str
  rawValue : Str
  len : Nat
  deriving Repr, DecidableEq

/-- Anchored `AttRE` matcher. -/
def attAnch (cs : Str) : Option AttAnch := do
  let s := cnt isS cs
  if s = 0 then none else
  let n ← matchName (cs.drop s)
  let s2 := cnt isS (cs.drop (s + n))
  let p := s + n + s2
  if (cs.drop p).head? = some '=' then
    let s3 := cnt isS (cs.drop (p + 1))
    let v ← attValSE (cs.drop (p + 1 + s3))
    some ⟨(cs.drop s).take n, (cs.drop (p + 1 + s3)).take v, p + 1 + s3 + v⟩
  else none

/-- One iteration of the attribute loop of `ElemTagCE` (the match length of
the shared attribute pattern). -/
def attrIter (cs : Str) : Option Nat :=
  (attAnch cs).map (fun m => m.len)

/-- Greedy Kleene star over `attrIter` (a failed iteration rewinds, ending
the loop, exactly as the regex engine backtracks out of the group). -/
def attrLoop : Nat → Str → Nat
  | 0, _ => 0
  | fuel + 1, cs =>
    match attrIter cs with
    | none => 0
    | some n => n + attrLoop fuel (cs.drop n)

/-- `ElemTagCE = Name (S Name (S)? = (S)? AttValSE)* (S)? "/?" ">?"`. -/
def elemTagCE (cs : Str) : Option Nat :=
  (matchName cs).map fun n =>
    let a := attrLoop (cs.length + 1) (cs.drop n)
    let s := cnt isS (cs.drop (n + a))
    let p := n + a + s
    let p2 := if (cs.drop p).head? = some '/' then p + 1 else p
    p2 + (if (cs.drop p2).head? = some '>' then 1 else 0)

/-- `MarkupDeclCE = "(?:[^\]\"'><]+|QuoteSE)*>"`. -/
def mdeclAux : Nat → Str → Option Nat
  | _, [] => none
  | 0, _ => none
  | fuel + 1, c :: cs =>
    if c = '>' then some 1
    else if c = '"' ∨ c = squote then do
      let n ← quoteSE (c :: cs)
      let m ← mdeclAux fuel ((c :: cs).drop n)
      some (n + m)
    else if c = ']' ∨ c = '<' then none
    else do
      let m ← mdeclAux fuel cs
      some (m + 1)

/-- `DT_ItemSE`: one DOCTYPE internal-subset item
(`<!--…-->`, `<!…>`, `<?…?>`, `%name;`, or whitespace). -/
def dtItemSE : Str → Option Nat
  | '<' :: '!' :: '-' :: '-' :: r => do
    let n ← until2Hyphens r
    if (r.drop n).head? = some '>' then some (4 + n + 1) else none
  | '<' :: '!' :: c :: r =>
    if c = '-' then none
    else do
      let m ← mdeclAux (r.length + 1) r
      some (3 + m)
  | '<' :: '?' :: r => do
    let n ← matchName r
    let m ← piTail (r.drop n)
    some (2 + n + m)
  | '%' :: r => do
    let n ← matchName r
    if (r.drop n).head? = some ';' then some (1 + n + 1) else none
  | cs =>
    let s := cnt isS cs
    if s = 0 then none else some s

/-- `(?:DT_ItemSE)*` (each item consumes at least one character). -/
def dtItemsLoop : Nat → Str → Nat
  | 0, _ => 0
  | fuel + 1, cs =>
    match dtItemSE cs with
    | none => 0
    | some n => n + dtItemsLoop fuel (cs.drop n)

/-- The loop of `DT_IdentSE`: `(?:S (?:Name|QuoteSE))*` with rewind on a
failed iteration. -/
def dtIdAux : Nat → Str → Nat
  | 0, _ => 0
  | fuel + 1, cs =>
    let s := cnt isS cs
    if s = 0 then 0 else
    match matchName (cs.drop s) with
    | some n => s + n + dtIdAux fuel (cs.drop (s + n))
    | none =>
      match quoteSE (cs.drop s) with
      | some q => s + q + dtIdAux fuel (cs.drop (s + q))
      | none => 0

/-- `DT_IdentSE = S Name (?:S (?:Name|QuoteSE))*`. -/
def dtIdentSE (cs : Str) : Option Nat := do
  let s := cnt isS cs
  if s = 0 then none else
  let n ← matchName (cs.drop s)
  some (s + n + dtIdAux (cs.length + 1) (cs.drop (s + n)))

/-- `DocTypeCE = DT_IdentSE (?:S)? (?:\[(?:DT_ItemSE)*\](?:S)?)? ">?"`. -/
def docTypeCE (cs : Str) : Option Nat :=
  (dtIdentSE cs).map fun n =>
    let s1 := cnt isS (cs.drop n)
    let p := n + s1
    let bracket : Option Nat :=
      if (cs.drop p).head? = some '[' then
        let items := dtItemsLoop (cs.length + 1) (cs.drop (p + 1))
        if (cs.drop (p + 1 + items)).head? = some ']' then
          let s2 := cnt isS (cs.drop (p + 1 + items + 1))
          some (1 + items + 1 + s2)
        else none
      else none
    let p2 := p + bracket.getD 0
    p2 + (if (cs.drop p2).head? = some '>' then 1 else 0)

/-- `DeclCE = "--(?:CommentCE)?|\[CDATA\[(?:CDATA_CE)?|DOCTYPE(?:DocTypeCE)?"`. -/
def declCE (r : Str) : Option Nat :=
  if r.take 2 = "--".toList then some (2 + (commentCE (r.drop 2)).getD 0)
  else if r.take 7 = "[CDATA[".toList then some (7 + (cdataCE (r.drop 7)).getD 0)
  else if r.take 7 = "DOCTYPE".toList then some (7 + (docTypeCE (r.drop 7)).getD 0)
  else none

/-- `MarkupSPE` after the initial `<`:
`!(?:DeclCE)?|\?(?:PI_CE)?|/(?:EndTagCE)?|(?:ElemTagCE)?`. -/
def markupLen : Str → Nat
  | [] => (elemTagCE []).getD 0
  | c :: r =>
    if c = '!' then 1 + (declCE r).getD 0
    else if c = '?' then 1 + (piCE r).getD 0
    else if c = '/' then 1 + (endTagCE r).getD 0
    else (elemTagCE (c :: r)).getD 0

/-- Length of the leftmost anchored match of `XML_SPE = TextSE | MarkupSPE`
(`0` only on empty input: the expression matches at every position). -/
def rexMatchLen : Str → Nat
  | [] => 0
  | c :: r =>
    if c = '<' then 1 + markupLen r
    else cnt (· ≠ '<') (c :: r)

/-! ## The attribute store (`AttributeDict` of tokens.py)

An order-preserving association list.  `dictSet` replaces in place when the
key exists (Python dict assignment keeps the original position) and appends
otherwise; `dictDel` removes the entry when present and is a no-op
otherwise (`AttributeDict.__delitem__`); `dictGet?` is `dict.get` (returns
`None` on a missing key); `dictGetD` is `dict[key]`, whose missing-key
behaviour is `AttributeDict.__missing__` returning the empty string. -/

/-- `key in d`. -/
def hasKey {α : Type} (d : List (Str × α)) (k : Str) : Bool :=
  match d with
  | [] => false
  | (k', _) :: tl => if k' = k then true else hasKey tl k

/-- `d.get(k)` (Python `dict.get`, default `None`). -/
def dictGet? {α : Type} (d : List (Str × α)) (k : Str) : Option α :=
  match d with
  | [] => none
  | (k', v) :: tl => if k' = k then some v else dictGet? tl k

/-- `d[k] = v`: replace in place if present, else append. -/
def dictSet {α : Type} (d : List (Str × α)) (k : Str) (v : α) : List (Str × α) :=
  if hasKey d k then
    d.map fun kv => if kv.1 = k then (k, v) else kv
  else d ++ [(k, v)]

/-- `AttributeDict.__delitem__`: remove if present, no-op otherwise. -/
def dictDel {α : Type} (d : List (Str × α)) (k : Str) : List (Str × α) :=
  if hasKey d k then d.filter (fun kv => decide (kv.1 ≠ k)) else d

/-- `AttributeDict.__missing__`: indexing with `[]` yields `''` on a
missing key. -/
def dictGetD (d : List (Str × Str)) (k : Str) : Str :=
  (dictGet? d k).getD []

/-- Escape of embedded double quotes in `AttributeDict.to_xml`. -/
def escAttValue : Str → Str
  | [] => []
  | c :: cs => (if c = '"' then "&quot;".toList else [c]) ++ escAttValue cs

/-- `AttributeDict.to_xml`: `' name="value"'` pairs in map order, values
normalized to double quotes with embedded `"` escaped. -/
def attrsToXml : List (Str × Str) → Str
  | [] => []
  | (k, v) :: tl => (' ' :: k) ++ ('=' :: '"' :: escAttValue v) ++ ('"' :: attrsToXml tl)

/-! ## Token structures and reserialization templates (tokens.py) -/

/-- `Start` / `Empty` state (class `StartOrEmpty`). -/
structure STag where
  name : Str
  attributes : List (Str × Str)
  xml : Str
  deriving Repr, DecidableEq

/-- `End` state. -/
structure EndTag where
  name : Str
  xml : Str
  deriving Repr, DecidableEq

/-- `Comment` state. -/
structure CommentTok where
  content : Str
  xml : Str
  deriving Repr, DecidableEq

/-- The parsed pseudo-attribute cache of a `PI`: the `AttributeDict`
together with its `spans` table (offsets into `instruction`). -/
structure PseudoState where
  dict : List (Str × Str)
  spans : List (Str × (Nat × Nat))
  deriving Repr, DecidableEq

/-- `PI` / `XmlDecl` state; `pseudo = none` models
`self._pseudoattributes = None` (not yet parsed). -/
structure PITok where
  target : Str
  instruction : Str
  pseudo : Option PseudoState
  xml : Str
  deriving Repr, DecidableEq

/-- `Doctype` state. -/
structure DoctypeTok where
  document_element : Str
  id_type : Str
  id_value : Str
  internal_subset : Str
  xml : Str
  deriving Repr, DecidableEq

/-- `Cdata` state. -/
structure CdataTok where
  content : Str
  xml : Str
  deriving Repr, DecidableEq

/-- `Error` state: the offending slice and its `(start, end)` span. -/
structure ErrorTok where
  xml : Str
  span : Nat × Nat
  deriving Repr, DecidableEq

/-- The closed set of token variants produced by the tokenizer. -/
inductive Token where
  | text (xml : Str)
  | start (t : STag)
  | empty (t : STag)
  | endTag (t : EndTag)
  | comment (t : CommentTok)
  | pi (t : PITok)
  | xmlDecl (t : PITok)
  | doctype (t : DoctypeTok)
  | cdata (t : CdataTok)
  | error (t : ErrorTok)
  deriving Repr, DecidableEq

/-- The serialized text (`token.xml`) of any token. -/
def Token.xml : Token → Str
  | .text x => x
  | .start t => t.xml
  | .empty t => t.xml
  | .endTag t => t.xml
  | .comment t => t.xml
  | .pi t => t.xml
  | .xmlDecl t => t.xml
  | .doctype t => t.xml
  | .cdata t => t.xml
  | .error t => t.xml

/-- Is the token an `Error` token? -/
def Token.isError : Token → Bool
  | .error _ => true
  | _ => false

/-- `Start.template = '<{name}{attributes.to_xml}>'`. -/
def startRender (name : Str) (attrs : List (Str × Str)) : Str :=
  '<' :: (name ++ attrsToXml attrs ++ ['>'])

/-- `Empty.template = '<{name}{attributes.to_xml}/>'`. -/
def emptyRender (name : Str) (attrs : List (Str × Str)) : Str :=
  '<' :: (name ++ attrsToXml attrs ++ ['/', '>'])

/-- `End.template = '</{name}>'`. -/
def endRender (name : Str) : Str := '<' :: '/' :: (name ++ ['>'])

/-- `Comment.template = '<!--{content}-->'`. -/
def commentRender (content : Str) : Str :=
  "<!--".toList ++ content ++ "-->".toList

/-- `Cdata.template = '<![CDATA[{content}]]>'`. -/
def cdataRender (content : Str) : Str :=
  "<![CDATA[".toList ++ content ++ "]]>".toList

/-- `PI.template = '<?{target}{space}{instruction}?>'` with
`space = ' ' if instruction.lstrip() else ''`. -/
def piRender (target instruction : Str) : Str :=
  '<' :: '?' :: (target ++ (if pyLstrip instruction ≠ [] then [' '] else []) ++
    instruction ++ ['?', '>'])

/-- `Doctype.reserialize`: `'<!DOCTYPE {0}>'.format(' '.join(l))`. -/
def doctypeRender (t : DoctypeTok) : Str :=
  let parts : List Str :=
    [t.document_element] ++
    (if t.id_type ≠ [] then [t.id_type] else []) ++
    (if t.id_value ≠ [] then ['"' :: (t.id_value ++ ['"'])] else []) ++
    (if t.internal_subset ≠ [] then ['[' :: (t.internal_subset ++ [']'])] else [])
  "<!DOCTYPE ".toList ++ (parts.intersperse [' ']).flatten ++ ['>']

/-- The canonical rendering of a token from its structured fields — the
text `reserialize` would produce (`none` for `Error`, whose `reserialize`
is a no-op). -/
def render : Token → Option Str
  | .text x => some x
  | .start t => some (startRender t.name t.attributes)
  | .empty t => some (emptyRender t.name t.attributes)
  | .endTag t => some (endRender t.name)
  | .comment t => some (commentRender t.content)
  | .pi t => some (piRender t.target t.instruction)
  | .xmlDecl t => some (piRender t.target t.instruction)
  | .doctype t => some (doctypeRender t)
  | .cdata t => some (cdataRender t.content)
  | .error _ => none

/-! ## Token constructors (the `__init__` methods of tokens.py) -/

/-- Anchored match of `ElemTagRE` at the head of the input: requires the
closing `>`, returning the `name` and `attributes` group slices. -/
structure ETMatch where
  name : Str
  attrs : Str
  deriving Repr, DecidableEq

/-- Anchored `ElemTagRE` matcher. -/
def elemTagAnch : Str → Option ETMatch
  | '<' :: r => do
    let n ← matchName r
    let a := attrLoop (r.length + 1) (r.drop n)
    let s := cnt isS (r.drop (n + a))
    let p := n + a + s
    let p2 := if (r.drop p).head? = some '/' then p + 1 else p
    if (r.drop p2).head? = some '>' then
      some ⟨r.take n, (r.drop n).take a⟩
    else none
  | _ => none

/-- `ElemTagRE_.search`: try the anchored matcher at successive positions. -/
def searchElemTag : Nat → Str → Option ETMatch
  | 0, _ => none
  | fuel + 1, cs =>
    match elemTagAnch cs with
    | some m => some m
    | none =>
      match cs with
      | [] => none
      | _ :: r => searchElemTag fuel r

/-- One `AttRE_.finditer` match record: name, raw value, and the span
`(i, j)` of the whole match in the scanned string. -/
structure AttMatch where
  name : Str
  rawValue : Str
  i : Nat
  j : Nat
  deriving Repr, DecidableEq

/-- `AttRE_.finditer`: leftmost non-overlapping matches, advancing one
character past positions where no match starts. -/
def finditerAtt : Nat → Str → Nat → List AttMatch
  | 0, _, _ => []
  | fuel + 1, cs, pos =>
    match attAnch cs with
    | some m => ⟨m.name, m.rawValue, pos, pos + m.len⟩ ::
        finditerAtt fuel (cs.drop m.len) (pos + m.len)
    | none =>
      match cs with
      | [] => []
      | _ :: r => finditerAtt fuel r (pos + 1)

/-- Python `value[1:-1]`: strip the quote delimiters. -/
def stripDelims (v : Str) : Str := (v.drop 1).dropLast

/-- `StartOrEmpty.__init__`: parse name and attributes with `ElemTagRE` and
`AttRE`; every attribute insertion triggers `reserialize`, so the final
`xml` is the template rendering as soon as at least one attribute exists
(`none` models the `AttributeError` crash when `ElemTagRE` does not
match). -/
def mkSTag (empty : Bool) (xml : Str) : Option STag :=
  (searchElemTag (xml.length + 1) xml).map fun m =>
    let attrs := (finditerAtt (m.attrs.length + 1) m.attrs 0).foldl
      (fun d a => dictSet d a.name (stripDelims a.rawValue)) []
    { name := m.name
      attributes := attrs
      xml := if attrs = [] then xml
             else if empty then emptyRender m.name attrs
             else startRender m.name attrs }

/-- Python `str.split('/')`. -/
def splitSlash : Str → List Str
  | [] => [[]]
  | c :: r =>
    if c = '/' then [] :: splitSlash r
    else
      match splitSlash r with
      | h :: t => (c :: h) :: t
      | [] => [[c]]

/-- `End.__init__`: `name = xml.split('/')[1][:-1].strip()` (`none` models
the `IndexError` when no `/` occurs). -/
def mkEnd (xml : Str) : Option EndTag :=
  match (splitSlash xml).drop 1 with
  | p1 :: _ => some { name := pyStrip p1.dropLast, xml := xml }
  | [] => none

/-- `Comment.__init__`: `content = xml[4:-3]`. -/
def mkComment (xml : Str) : CommentTok :=
  { content := (xml.drop 4).dropLast.dropLast.dropLast, xml := xml }

/-- `Cdata.__init__`: `content = xml[9:-3]`. -/
def mkCdata (xml : Str) : CdataTok :=
  { content := (xml.drop 9).dropLast.dropLast.dropLast, xml := xml }

/-- `xml[2:endslice].split(None, 1)` with the `ValueError` fallback and the
trailing `.strip()` calls of `PI.__init__`. -/
def piSplitBody (body : Str) : Str × Str :=
  let t0 := body.dropWhile isPySpace
  let nm := t0.takeWhile (fun c => ¬ isPySpace c)
  let rest := (t0.dropWhile (fun c => ¬ isPySpace c)).dropWhile isPySpace
  if nm = [] ∨ rest = [] then (pyStrip body, [])
  else (nm, pyRstrip rest)

/-- `PI.__init__`: split target / instruction; pseudo-attributes unparsed. -/
def mkPI (xml : Str) : PITok :=
  let body := if endsQM xml then (xml.drop 2).dropLast.dropLast else (xml.drop 2).dropLast
  let ti := piSplitBody body
  { target := ti.1, instruction := ti.2, pseudo := none, xml := xml }

/-! ### PI pseudo-attribute machinery -/

/-- `PI._locate_pseudoattributes`: rescan `' ' + instruction` with `AttRE`,
rebuilding the pseudo-attribute dict and the spans table (spans adjusted
back by the synthetic leading space, clamped at zero). -/
def locatePseudo (instruction : Str) : PseudoState :=
  (finditerAtt (instruction.length + 2) (' ' :: instruction) 0).foldl
    (fun st m =>
      { dict := dictSet st.dict m.name (stripDelims m.rawValue)
        spans := dictSet st.spans m.name
          (if m.i = 0 then (0, m.j - 1) else (m.i - 1, m.j - 1)) })
    ⟨[], []⟩

/-- `if not self._pseudoattributes:` — true when the cache is `None` or the
dict is empty. -/
def needsParse (t : PITok) : Bool :=
  match t.pseudo with
  | none => true
  | some st => st.dict = []

/-- `PI.reserialize`: lstrip the instruction, then re-render `xml`. -/
def reserializePI (t : PITok) : PITok :=
  let i := pyLstrip t.instruction
  { t with instruction := i, xml := piRender t.target i }

/-- `PI._parse_pseudoattributes` as triggered by
`if not self._pseudoattributes:` — parse, and (because each insertion into
the `AttributeDict` triggers the owning token's `reserialize`) re-render
`xml` as soon as at least one pseudo-attribute was found. -/
def forcePI (t : PITok) : PITok :=
  if needsParse t then
    let st := locatePseudo t.instruction
    if st.dict = [] then { t with pseudo := some st }
    else reserializePI { t with pseudo := some st }
  else t

/-- The pseudo-attribute dict (empty when unparsed). -/
def PITok.pseudoDict (t : PITok) : List (Str × Str) :=
  (t.pseudo.getD ⟨[], []⟩).dict

/-- The spans table (empty when unparsed). -/
def PITok.pseudoSpans (t : PITok) : List (Str × (Nat × Nat)) :=
  (t.pseudo.getD ⟨[], []⟩).spans

/-- `PI.__getitem__`: parse on first access, then `dict.get` (which yields
`None` — not `''` — on a missing key).  Returns the updated token together
with the result, since the lazy parse mutates the token. -/
def piGetItem (t : PITok) (k : Str) : PITok × Option Str :=
  let t' := forcePI t
  (t', dictGet? t'.pseudoDict k)

/-- The `' {name}="{value}"'` fragment written by `PI.__setitem__`. -/
def attrFrag (k v : Str) : Str := ' ' :: (k ++ ('=' :: '"' :: v) ++ ['"'])

/-- `PI.__setitem__`: overwrite the recorded span in `instruction` when the
name has one, else append; then relocate all spans and reserialize. -/
def piSetItem (t : PITok) (k v : Str) : PITok :=
  let t := forcePI t
  let st := t.pseudo.getD ⟨[], []⟩
  let instr :=
    match dictGet? st.spans k with
    | some (i, j) => t.instruction.take i ++ attrFrag k v ++ t.instruction.drop j
    | none => t.instruction ++ attrFrag k v
  let st' := locatePseudo instr
  let i2 := pyLstrip instr
  { target := t.target, instruction := i2, pseudo := some st',
    xml := piRender t.target i2 }

/-- `PI.__delitem__`: the `AttributeDict` deletion is a silent no-op on a
missing key, but the subsequent `spans[name]` lookup raises `KeyError`
(modelled by `none`); on success the span is cut out of `instruction`,
spans are relocated, and the token reserialized. -/
def piDelItem (t : PITok) (k : Str) : Option PITok :=
  let t := forcePI t
  let st := t.pseudo.getD ⟨[], []⟩
  match dictGet? st.spans k with
  | none => none
  | some (i, j) =>
    let instr := t.instruction.take i ++ t.instruction.drop j
    let st' := locatePseudo instr
    let i2 := pyLstrip instr
    some { target := t.target, instruction := i2, pseudo := some st',
           xml := piRender t.target i2 }

/-- `PI.__contains__`: `False` whenever the cache is `None`; never parses. -/
def piContains (t : PITok) (k : Str) : Bool :=
  match t.pseudo with
  | none => false
  | some st => hasKey st.dict k

/-- The `instruction` property setter: replace wholesale, invalidate the
pseudo-attribute cache, reserialize. -/
def piSetInstruction (t : PITok) (v : Str) : PITok :=
  reserializePI { t with instruction := v, pseudo := none }

/-- The `target` property setter. -/
def piSetTarget (t : PITok) (v : Str) : PITok :=
  reserializePI { t with target := v }

/-- `XmlDecl.__init__`: `PI.__init__` followed by `self['encoding']`, which
forces the pseudo-attribute parse (the process-wide encoding side effect is
out of scope). -/
def mkXmlDecl (xml : Str) : PITok := forcePI (mkPI xml)

/-! ### The DOCTYPE secondary parser (`doctype_parser_` of tokens.py)

The regex (dotall) is
`<!DOCTYPE\s+(\S+)(?:(?:\s+(SYSTEM|PUBLIC))(?:\s+(["'])(.*?)\3)?)?(?:\s*\[(.*)\])?\s*>`;
the matchers below reproduce its backtracking order: the greedy `\S+`
retries from longest to shortest, the optional groups are tried
present-first, the lazy `.*?` extends from shortest, and the greedy
dotall `.*` of the internal subset retracts from the end. -/

/-- `\s*\[(.*)\]\s*>` or `\s*>`: the internal-subset tail.  The greedy
`.*` takes the longest prefix whose following `]` is trailed by `\s*>`. -/
def dtSubAux (body : Str) : Nat → Option Nat
  | 0 => none
  | k + 1 =>
    if (body.drop k).head? = some ']' then
      if ((body.drop (k + 1)).dropWhile isPySpace).head? = some '>' then some k
      else dtSubAux body k
    else dtSubAux body k

/-- The optional internal-subset group followed by `\s*>`; returns the
`internal_subset` capture (empty when the group is absent). -/
def dtTail (r : Str) : Option Str :=
  let r' := r.dropWhile isPySpace
  (match r' with
   | '[' :: body => (dtSubAux body body.length).map (body.take ·)
   | _ => none).orElse
  fun _ => if r'.head? = some '>' then some [] else none

/-- The lazy `(["'])(.*?)\3` capture followed by the subset tail: try each
successive occurrence of the closing delimiter. -/
def dtQuoted (q : Char) : Nat → Str → Option (Str × Str)
  | 0, _ => none
  | fuel + 1, rest =>
    let v := rest.takeWhile (· ≠ q)
    if (rest.drop v.length).head? = some q then
      match dtTail (rest.drop (v.length + 1)) with
      | some sub => some (v, sub)
      | none =>
        match rest.drop (v.length + 1) with
        | [] => none
        | more =>
          (dtQuoted q fuel more).map fun (v2, sub) => (v ++ (q :: v2), sub)
    else none

/-- Everything after the `document_element` capture: the optional
`SYSTEM|PUBLIC` identifier group (present-first), then the subset tail.
Returns `(id_type, id_value, internal_subset)`. -/
def dtAfterDE (r : Str) : Option (Str × Str × Str) :=
  let withId : Option (Str × Str × Str) := do
    let ws := cnt isPySpace r
    if ws = 0 then none else
    let r2 := r.drop ws
    let idt ←
      if "SYSTEM".toList = r2.take 6 then some "SYSTEM".toList
      else if "PUBLIC".toList = r2.take 6 then some "PUBLIC".toList
      else none
    let r3 := r2.drop 6
    let withQuote : Option (Str × Str × Str) := do
      let ws2 := cnt isPySpace r3
      if ws2 = 0 then none else
      match r3.drop ws2 with
      | q :: rest =>
        if q = '"' ∨ q = squote then
          (dtQuoted q (rest.length + 1) rest).map fun p => (idt, p.1, p.2)
        else none
      | [] => none
    match withQuote with
    | some x => some x
    | none => (dtTail r3).map fun sub => (idt, ([] : Str), sub)
  match withId with
  | some x => some x
  | none => (dtTail r).map fun sub => (([] : Str), ([] : Str), sub)

/-- Retry the greedy `\S+` of `document_element` from longest to
shortest. -/
def dtDELoop (r1 : Str) : Nat → Option DoctypeTok
  | 0 => none
  | k + 1 =>
    match dtAfterDE (r1.drop (k + 1)) with
    | some (idt, idv, sub) =>
      some { document_element := r1.take (k + 1), id_type := idt,
             id_value := idv, internal_subset := sub, xml := [] }
    | none => dtDELoop r1 k

/-- The anchored `doctype_parser_` body after the `<!DOCTYPE` literal. -/
def dtParseAt (r : Str) : Option DoctypeTok :=
  let ws := cnt isPySpace r
  if ws = 0 then none else
  let r1 := r.drop ws
  let mx := cnt (fun c => ¬ isPySpace c) r1
  if mx = 0 then none else dtDELoop r1 mx

/-- `doctype_parser_.search`: scan for an occurrence of `<!DOCTYPE` whose
continuation matches. -/
def searchDoctype : Nat → Str → Option DoctypeTok
  | 0, _ => none
  | fuel + 1, cs =>
    (if "<!DOCTYPE".toList = cs.take 9 then dtParseAt (cs.drop 9) else none).orElse
    fun _ =>
      match cs with
      | [] => none
      | _ :: r => searchDoctype fuel r

/-- `Doctype.__init__`: run the secondary parser; `none` models the
`SecondaryParsingError` raised when it fails. -/
def mkDoctype (xml : Str) : Option DoctypeTok :=
  (searchDoctype (xml.length + 1) xml).map fun t => { t with xml := xml }

/-! ## The tokenizer (`tokenize` of tokens.py) -/

/-- Python `xml.startswith('<?xml ')` (trailing space included). -/
def startsXmlDecl (c : Str) : Bool :=
  c.take 6 = "<?xml ".toList

/-- Classification of one `XML_SPE` match, in the branch order of
`tokenize`: text if the match does not start with `<`; an `Error` token if
it does not end with `>`; otherwise dispatch on `xml[1]` and the literal
prefixes.  `Except.error` models an exception escaping token construction;
`.ok []` is the silent fall-through of the `'!'` branch when none of the
three declaration prefixes applies. -/
def classifyChunk (c : Str) (pos : Nat) : Except Unit (List Token) :=
  if c.head? ≠ some '<' then .ok [.text c]
  else if c.getLast? ≠ some '>' then .ok [.error ⟨c, (pos, pos + c.length)⟩]
  else
    let c1 := (c.drop 1).head?.getD ' '
    if c1 = '/' then
      match mkEnd c with
      | some e => .ok [.endTag e]
      | none => .error ()
    else if c1 = '!' then
      if c.take 4 = "<!--".toList then .ok [.comment (mkComment c)]
      else if (c.drop 2).head? = some '[' then .ok [.cdata (mkCdata c)]
      else if c.take 9 = "<!DOCTYPE".toList then
        match mkDoctype c with
        | some d => .ok [.doctype d]
        | none => .error ()
      else .ok []
    else if c1 = '?' then
      if startsXmlDecl c then .ok [.xmlDecl (mkXmlDecl c)]
      else .ok [.pi (mkPI c)]
    else
      if secondLast c = some '/' then
        match mkSTag true c with
        | some t => .ok [.empty t]
        | none => .error ()
      else
        match mkSTag false c with
        | some t => .ok [.start t]
        | none => .error ()

instance {ε α : Type} [DecidableEq ε] [DecidableEq α] : DecidableEq (Except ε α) := by
  intro a b
  cases a <;> cases b
  case error.error e f =>
    exact if h : e = f then .isTrue (by rw [h]) else .isFalse (fun hc => h (by cases hc; rfl))
  case error.ok e f => exact .isFalse (fun hc => Except.noConfusion hc)
  case ok.error e f => exact .isFalse (fun hc => Except.noConfusion hc)
  case ok.ok e f =>
    exact if h : e = f then .isTrue (by rw [h]) else .isFalse (fun hc => h (by cases hc; rfl))

/-- The tokenizer loop over successive `XML_SPE` matches. -/
def tokenizeGo : Nat → Str → Nat → Except Unit (List Token)
  | 0, _, _ => .ok []
  | _, [], _ => .ok []
  | fuel + 1, cs, pos => do
    let n := rexMatchLen cs
    let ts ← classifyChunk (cs.take n) pos
    let rest ← tokenizeGo fuel (cs.drop n) (pos + n)
    .ok (ts ++ rest)

/-- `tokenize`: the full classified token stream of an input
(`Except.error` models an exception raised during iteration). -/
def tokenize (cs : Str) : Except Unit (List Token) :=
  tokenizeGo (cs.length + 1) cs 0

/-- The successive `XML_SPE` match slices with their start offsets. -/
def chunksPosGo : Nat → Str → Nat → List (Str × Nat)
  | 0, _, _ => []
  | _, [], _ => []
  | fuel + 1, cs, pos =>
    let n := rexMatchLen cs
    (cs.take n, pos) :: chunksPosGo fuel (cs.drop n) (pos + n)

/-- All match slices of an input, with offsets. -/
def chunksPos (cs : Str) : List (Str × Nat) :=
  chunksPosGo (cs.length + 1) cs 0

/-- Is the match slice stable under classification?  Every token
construction copies its literal slice into `xml` except a `Start`/`Empty`
with at least one attribute and an `XmlDecl` with at least one
pseudo-attribute, which reserialize during construction; for those the
slice is stable exactly when it already equals its canonical rendering. -/
def canonStableAt (cp : Str × Nat) : Bool :=
  match classifyChunk cp.1 cp.2 with
  | .ok [.start s] => decide (s.attributes = []) || decide (s.xml = cp.1)
  | .ok [.empty s] => decide (s.attributes = []) || decide (s.xml = cp.1)
  | .ok [.xmlDecl p] => decide (p.pseudoDict = []) || decide (p.xml = cp.1)
  | _ => true

/-- `concat_tokens` (no filter): concatenate the `xml` of every token. -/
def concat_tokens (ts : List Token) : Str :=
  (ts.map Token.xml).flatten

/-! ## Filters (token_filters.py) -/

/-- The exceptions raised by `wellformedness_check`. -/
inductive WfErr where
  /-- `WellformednessError('Extra end tag found: "%s"' % token.xml)`. -/
  | extraEnd (endXml : Str)
  /-- `WellformednessError('"%s" matched by "%s"' % (start.xml, token.xml))`. -/
  | mismatch (startXml endXml : Str)
  /-- `MarkupError(token.xml + tokens.next().xml)`. -/
  | markup (context : Str)
  /-- `StopIteration` from `tokens.next()` on a trailing `Error` token. -/
  | stopIteration
  deriving Repr, DecidableEq

/-- `wellformedness_check`: a validating pass-through maintaining a stack
of open `Start` tokens. -/
def wellformedness_check : List Token → List STag → Except WfErr (List Token)
  | [], _ => .ok []
  | tok :: rest, stack =>
    match tok with
    | .start t => (wellformedness_check rest (t :: stack)).map (tok :: ·)
    | .endTag e =>
      match stack with
      | [] => .error (.extraEnd e.xml)
      | s :: st =>
        if s.name = e.name then (wellformedness_check rest st).map (tok :: ·)
        else .error (.mismatch s.xml e.xml)
    | .error t =>
      match rest with
      | [] => .error .stopIteration
      | nxt :: _ => .error (.markup (t.xml ++ nxt.xml))
    | _ => (wellformedness_check rest stack).map (tok :: ·)

/-- `expand_empty_tags` on one token: an `Empty` whose name is kept passes
through; otherwise the token is reserialized with the `Start` template and
re-parsed after `xml.replace('/', '')`, followed by a fresh `End`
(`Except.error` models the crash when the re-parse fails). -/
def expandTok (keep : List Str) : Token → Except Unit (List Token)
  | .empty t =>
    if ¬ keep.isEmpty ∧ t.name ∈ keep then .ok [.empty t]
    else
      let x := (startRender t.name t.attributes).filter (· ≠ '/')
      match mkSTag false x, mkEnd (endRender t.name) with
      | some s, some e => .ok [.start s, .endTag e]
      | _, _ => .error ()
  | tok => .ok [tok]

/-- `expand_empty_tags` over a token stream. -/
def expand_empty_tags (tokens : List Token) (keep : List Str) :
    Except Unit (List Token) :=
  match tokens with
  | [] => .ok []
  | tok :: rest => do
    let ts ← expandTok keep tok
    let more ← expand_empty_tags rest keep
    .ok (ts ++ more)

/-! ## Field mutations

The property setters and item assignments of tokens.py, as one operation
type.  `applyMut` is the state transition; `applicableMut` tells whether
the operation actually fires on the given variant (and, for deletions,
whether the key is present — `AttributeDict.__delitem__` silently skips
absent keys without reserializing, and `PI.__delitem__` raises). -/

inductive Mut where
  | setName (v : Str)
  | setAttr (k v : Str)
  | delAttr (k : Str)
  | setContent (v : Str)
  | setTarget (v : Str)
  | setInstruction (v : Str)
  | setPseudo (k v : Str)
  | delPseudo (k : Str)
  | setDocElem (v : Str)
  | setIdType (v : Str)
  | setIdValue (v : Str)
  | setInternalSubset (v : Str)
  deriving Repr, DecidableEq

/-- `StartOrEmpty` attribute assignment (`token[k] = v`): the
`AttributeDict.__setitem__` stores the value and triggers `reserialize`. -/
def stSetAttr (empty : Bool) (t : STag) (k v : Str) : STag :=
  let d := dictSet t.attributes k v
  { name := t.name, attributes := d,
    xml := if empty then emptyRender t.name d else startRender t.name d }

/-- `StartOrEmpty.__delitem__` / `delete_attribute`: remove and reserialize
when present, silent no-op otherwise. -/
def stDelAttr (empty : Bool) (t : STag) (k : Str) : STag :=
  if hasKey t.attributes k then
    let d := dictDel t.attributes k
    { name := t.name, attributes := d,
      xml := if empty then emptyRender t.name d else startRender t.name d }
  else t

/-- `StartOrEmpty.__getitem__`: `self.attributes.get(name)` — Python
`dict.get`, whose missing-key result is `None`, not the empty string. -/
def stGetItem (t : STag) (k : Str) : Option Str :=
  dictGet? t.attributes k

/-- Whether the mutation fires on this token. -/
def applicableMut : Token → Mut → Bool
  | .start _, .setName _ => true
  | .start _, .setAttr _ _ => true
  | .start t, .delAttr k => hasKey t.attributes k
  | .empty _, .setName _ => true
  | .empty _, .setAttr _ _ => true
  | .empty t, .delAttr k => hasKey t.attributes k
  | .endTag _, .setName _ => true
  | .comment _, .setContent _ => true
  | .cdata _, .setContent _ => true
  | .pi _, .setTarget _ => true
  | .pi _, .setInstruction _ => true
  | .pi _, .setPseudo _ _ => true
  | .pi t, .delPseudo k => (piDelItem t k).isSome
  | .xmlDecl _, .setTarget _ => true
  | .xmlDecl _, .setInstruction _ => true
  | .xmlDecl _, .setPseudo _ _ => true
  | .xmlDecl t, .delPseudo k => (piDelItem t k).isSome
  | .doctype _, .setDocElem _ => true
  | .doctype _, .setIdType _ => true
  | .doctype _, .setIdValue _ => true
  | .doctype _, .setInternalSubset _ => true
  | _, _ => false

/-- Apply a mutation (identity when it does not fire). -/
def applyMut : Token → Mut → Token
  | .start t, .setName v => .start { t with name := v, xml := startRender v t.attributes }
  | .start t, .setAttr k v => .start (stSetAttr false t k v)
  | .start t, .delAttr k => .start (stDelAttr false t k)
  | .empty t, .setName v => .empty { t with name := v, xml := emptyRender v t.attributes }
  | .empty t, .setAttr k v => .empty (stSetAttr true t k v)
  | .empty t, .delAttr k => .empty (stDelAttr true t k)
  | .endTag _, .setName v => .endTag { name := v, xml := endRender v }
  | .comment _, .setContent v => .comment { content := v, xml := commentRender v }
  | .cdata _, .setContent v => .cdata { content := v, xml := cdataRender v }
  | .pi t, .setTarget v => .pi (piSetTarget t v)
  | .pi t, .setInstruction v => .pi (piSetInstruction t v)
  | .pi t, .setPseudo k v => .pi (piSetItem t k v)
  | .pi t, .delPseudo k => .pi ((piDelItem t k).getD t)
  | .xmlDecl t, .setTarget v => .xmlDecl (piSetTarget t v)
  | .xmlDecl t, .setInstruction v => .xmlDecl (piSetInstruction t v)
  | .xmlDecl t, .setPseudo k v => .xmlDecl (piSetItem t k v)
  | .xmlDecl t, .delPseudo k => .xmlDecl ((piDelItem t k).getD t)
  | .doctype t, .setDocElem v =>
    .doctype (let t' : DoctypeTok := { t with document_element := v };
      { t' with xml := doctypeRender t' })
  | .doctype t, .setIdType v =>
    .doctype (let t' : DoctypeTok := { t with id_type := v };
      { t' with xml := doctypeRender t' })
  | .doctype t, .setIdValue v =>
    .doctype (let t' : DoctypeTok := { t with id_value := v };
      { t' with xml := doctypeRender t' })
  | .doctype t, .setInternalSubset v =>
    .doctype (let t' : DoctypeTok := { t with internal_subset := v };
      { t' with xml := doctypeRender t' })
  | t, _ => t

/-- Does the mutation set a structured field (tag name, an existing
attribute, content, target, instruction, or a DOCTYPE field — not a
pseudo-attribute entry and not a deletion) to its current value? -/
def setsCurrentB : Token → Mut → Bool
  | .start t, .setName v => decide (v = t.name)
  | .start t, .setAttr k v => decide (dictGet? t.attributes k = some v)
  | .empty t, .setName v => decide (v = t.name)
  | .empty t, .setAttr k v => decide (dictGet? t.attributes k = some v)
  | .endTag t, .setName v => decide (v = t.name)
  | .comment t, .setContent v => decide (v = t.content)
  | .cdata t, .setContent v => decide (v = t.content)
  | .pi t, .setTarget v => decide (v = t.target)
  | .pi t, .setInstruction v => decide (v = t.instruction)
  | .xmlDecl t, .setTarget v => decide (v = t.target)
  | .xmlDecl t, .setInstruction v => decide (v = t.instruction)
  | .doctype t, .setDocElem v => decide (v = t.document_element)
  | .doctype t, .setIdType v => decide (v = t.id_type)
  | .doctype t, .setIdValue v => decide (v = t.id_value)
  | .doctype t, .setInternalSubset v => decide (v = t.internal_subset)
  | _, _ => false

/-- Are the keys of an association list pairwise distinct? -/
def nodupKeysB {α : Type} : List (Str × α) → Bool
  | [] => true
  | (k, _) :: tl => !hasKey tl k && nodupKeysB tl

/-- Canonical state of a token: its serialized text equals the rendering of
its structured fields (as established by any reserializing mutation), its
attribute keys are unduplicated, and a PI instruction carries no leading
whitespace (as `PI.reserialize` guarantees). -/
def canonicalB : Token → Bool
  | .text _ => true
  | .start t => decide (t.xml = startRender t.name t.attributes) && nodupKeysB t.attributes
  | .empty t => decide (t.xml = emptyRender t.name t.attributes) && nodupKeysB t.attributes
  | .endTag t => decide (t.xml = endRender t.name)
  | .comment t => decide (t.xml = commentRender t.content)
  | .pi t => decide (t.xml = piRender t.target t.instruction) &&
      decide (pyLstrip t.instruction = t.instruction)
  | .xmlDecl t => decide (t.xml = piRender t.target t.instruction) &&
      decide (pyLstrip t.instruction = t.instruction)
  | .doctype t => decide (t.xml = doctypeRender t)
  | .cdata t => decide (t.xml = cdataRender t.content)
  | .error _ => false

/-! ## Supporting lemmas -/

theorem hasKey_of_dictGet {α : Type} {d : List (Str × α)} {k : Str} {v : α}
    (h : dictGet? d k = some v) : hasKey d k = true := by
  induction d with
  | nil => simp [dictGet?] at h
  | cons kv tl ih =>
    obtain ⟨k', v'⟩ := kv
    by_cases hk : k' = k
    · simp [hasKey, hk]
    · simp only [dictGet?, if_neg hk] at h
      simp [hasKey, hk, ih h]

theorem map_id_of_no_key {α : Type} {d : List (Str × α)} {k : Str} (v : α)
    (h : hasKey d k = false) :
    (d.map fun kv => if kv.1 = k then (k, v) else kv) = d := by
  induction d with
  | nil => rfl
  | cons kv tl ih =>
    obtain ⟨k', v'⟩ := kv
    by_cases hk : k' = k
    · simp [hasKey, hk] at h
    · simp only [hasKey, if_neg hk] at h
      simp [hk, ih h]

theorem dictSet_self {d : List (Str × Str)} {k v : Str}
    (hv : dictGet? d k = some v) (hnd : nodupKeysB d = true) :
    dictSet d k v = d := by
  unfold dictSet
  rw [if_pos (hasKey_of_dictGet hv)]
  induction d with
  | nil => simp [dictGet?] at hv
  | cons kv tl ih =>
    obtain ⟨k', v'⟩ := kv
    simp only [nodupKeysB, Bool.and_eq_true, Bool.not_eq_true'] at hnd
    by_cases hk : k' = k
    · subst hk
      unfold dictGet? at hv
      rw [if_pos rfl] at hv
      obtain rfl : v' = v := by injection hv
      simp only [List.map_cons, List.cons.injEq]
      exact ⟨by simp, map_id_of_no_key v' hnd.1⟩
    · unfold dictGet? at hv
      rw [if_neg hk] at hv
      simp only [List.map_cons]
      rw [if_neg (by simpa using hk)]
      simp only [List.cons.injEq, true_and]
      exact ih hv hnd.2

theorem piSetTarget_xml (t : PITok) (v : Str) :
    (piSetTarget t v).xml = piRender (piSetTarget t v).target (piSetTarget t v).instruction := rfl

theorem piSetInstruction_xml (t : PITok) (v : Str) :
    (piSetInstruction t v).xml =
      piRender (piSetInstruction t v).target (piSetInstruction t v).instruction := rfl

theorem piSetItem_xml (t : PITok) (k v : Str) :
    (piSetItem t k v).xml = piRender (piSetItem t k v).target (piSetItem t k v).instruction := rfl

theorem piDelItem_ok_xml {p : PITok} {k : Str} {t' : PITok}
    (h : piDelItem p k = some t') : t'.xml = piRender t'.target t'.instruction := by
  simp only [piDelItem] at h
  split at h
  · exact absurd h (by simp)
  · obtain rfl : _ = t' := Option.some.injEq _ _ ▸ h
    rfl

/-! ## Claim C2 -/

/-- C2, counterexample: the claim fails immediately after construction.
The `Start` token built from the literal `<a >` (no attributes, so no
reserialization is triggered) keeps `serialized = "<a >"`, while the
canonical rendering of its fields is `"<a>"`. -/
theorem c2_counterexample :
    mkSTag false ("<a >".toList) = some ⟨"a".toList, [], "<a >".toList⟩ ∧
    render (.start ⟨"a".toList, [], "<a >".toList⟩) = some ("<a>".toList) ∧
    Token.xml (.start ⟨"a".toList, [], "<a >".toList⟩) ≠ "<a>".toList := by
  refine ⟨by decide, by decide, by decide⟩

/-- C2 (amended): after any applicable field mutation the serialized text
equals the canonical rendering of the current structured fields — every
setter reserializes synchronously, so `serialized` is never stale once a
mutation has occurred.  (Immediately after construction the property can
fail: `serialized` need not equal the canonical rendering of the fields,
as the counterexample `Start` built from `<a >` shows.) -/
theorem c2_serialized_tracks_fields (t : Token) (m : Mut)
    (h : applicableMut t m = true) :
    render (applyMut t m) = some (Token.xml (applyMut t m)) := by
  cases t <;> cases m
  case start.setName => rfl
  case start.setAttr => rfl
  case start.delAttr s k =>
    simp only [applicableMut] at h
    simp [applyMut, stDelAttr, h, render, Token.xml]
  case empty.setName => rfl
  case empty.setAttr => rfl
  case empty.delAttr s k =>
    simp only [applicableMut] at h
    simp [applyMut, stDelAttr, h, render, Token.xml]
  case endTag.setName => rfl
  case comment.setContent => rfl
  case cdata.setContent => rfl
  case pi.setTarget p v => exact congrArg some (piSetTarget_xml p v).symm
  case pi.setInstruction p v => exact congrArg some (piSetInstruction_xml p v).symm
  case pi.setPseudo p k v => exact congrArg some (piSetItem_xml p k v).symm
  case pi.delPseudo p k =>
    simp only [applicableMut] at h
    obtain ⟨t', ht⟩ := Option.isSome_iff_exists.mp h
    simp only [applyMut, ht, Option.getD_some, render, Token.xml]
    exact congrArg some (piDelItem_ok_xml ht).symm
  case xmlDecl.setTarget p v => exact congrArg some (piSetTarget_xml p v).symm
  case xmlDecl.setInstruction p v => exact congrArg some (piSetInstruction_xml p v).symm
  case xmlDecl.setPseudo p k v => exact congrArg some (piSetItem_xml p k v).symm
  case xmlDecl.delPseudo p k =>
    simp only [applicableMut] at h
    obtain ⟨t', ht⟩ := Option.isSome_iff_exists.mp h
    simp only [applyMut, ht, Option.getD_some, render, Token.xml]
    exact congrArg some (piDelItem_ok_xml ht).symm
  case doctype.setDocElem => rfl
  case doctype.setIdType => rfl
  case doctype.setIdValue => rfl
  case doctype.setInternalSubset => rfl
  all_goals (simp only [applicableMut] at h; exact Bool.noConfusion h)

/-- C2, witness. -/
theorem c2_witness :
    applicableMut (.comment ⟨"c".toList, "<!--c-->".toList⟩) (.setContent "d".toList) = true ∧
    render (applyMut (.comment ⟨"c".toList, "<!--c-->".toList⟩) (.setContent "d".toList)) =
      some (Token.xml (applyMut (.comment ⟨"c".toList, "<!--c-->".toList⟩)
        (.setContent "d".toList))) :=
  ⟨by decide, c2_serialized_tracks_fields _ _ (by decide)⟩

/-! ## Claim C7 -/

/-- C7, counterexample: on a token freshly constructed from literal markup
text, setting a field to its current value need not leave `serialized`
unchanged — the first reserialization normalizes.  `End('</a >')` has name
`a`; setting `name = 'a'` rewrites `serialized` to `</a>`. -/
theorem c7_counterexample :
    mkEnd ("</a >".toList) = some ⟨"a".toList, "</a >".toList⟩ ∧
    Token.xml (applyMut (.endTag ⟨"a".toList, "</a >".toList⟩) (.setName "a".toList)) =
      "</a>".toList ∧
    ("</a>".toList : Str) ≠ "</a >".toList := by
  refine ⟨by decide, by decide, by decide⟩

/-- C7 (amended): setting a structured field (tag name, an existing
attribute value, comment/CDATA content, PI target or instruction, a
DOCTYPE field) to its current value leaves the serialized text unchanged
provided the token is in canonical state — its serialized text already
equals the rendering of its fields, as holds after any reserializing
mutation.  (Freshly constructed tokens may normalize on the first set, and
re-setting a pseudo-attribute may additionally rewrite its occurrence
inside the instruction into canonical form.) -/
theorem c7_set_current_idempotent (t : Token) (m : Mut)
    (hs : setsCurrentB t m = true) (hc : canonicalB t = true) :
    Token.xml (applyMut t m) = Token.xml t := by
  cases t <;> cases m <;>
    (try (simp only [setsCurrentB] at hs; exact Bool.noConfusion hs)) <;>
    simp only [setsCurrentB, decide_eq_true_eq] at hs <;>
    simp only [canonicalB, Bool.and_eq_true, decide_eq_true_eq] at hc <;>
    simp only [applyMut, Token.xml, stSetAttr, piSetTarget, piSetInstruction,
      reserializePI] <;>
    first
    | (subst hs; exact hc.symm)
    | (subst hs; exact hc.1.symm)
    | (subst hs; rw [hc.2]; exact hc.1.symm)
    | (rw [dictSet_self hs hc.2]; exact hc.1.symm)

/-- C7, witness. -/
theorem c7_witness :
    setsCurrentB (.endTag ⟨"a".toList, "</a>".toList⟩) (.setName "a".toList) = true ∧
    canonicalB (.endTag ⟨"a".toList, "</a>".toList⟩) = true ∧
    Token.xml (applyMut (.endTag ⟨"a".toList, "</a>".toList⟩) (.setName "a".toList)) =
      Token.xml (.endTag ⟨"a".toList, "</a>".toList⟩) :=
  ⟨by decide, by decide,
    c7_set_current_idempotent _ _ (by decide) (by decide)⟩

/-! ## Claim C3 -/

/-- C3, counterexample: tokenizing `<a b="1` does not yield a single
`Error` token spanning the whole input.  The grammar match stops after
`<a ` (the attribute iteration fails on the unterminated quote and the
regex rewinds), so the `Error` token covers only offsets `(0, 3)`, and the
remainder `b="1` is produced as an ordinary `Text` token. -/
theorem c3_counterexample :
    tokenize ("<a b=\"1".toList) =
      .ok [.error ⟨"<a ".toList, (0, 3)⟩, .text ("b=\"1".toList)] ∧
    ("<a b=\"1".toList).length = 7 := by
  refine ⟨by decide, by decide⟩

/-- C3 (amended): malformed markup yields an `Error` token covering the
maximal prefix matched by the tag grammar — for `<a b="1` that is `<a `
with span `(0, 3)` — followed by a `Text` token for the rest of the
malformed run; scanning resumes and subsequent well-formed input is
tokenized correctly. -/
theorem c3_error_recovery :
    tokenize (("<a b=\"1".toList) ++ ("<p>ok</p>".toList)) =
      .ok [.error ⟨"<a ".toList, (0, 3)⟩, .text ("b=\"1".toList),
           .start ⟨"p".toList, [], "<p>".toList⟩, .text ("ok".toList),
           .endTag ⟨"p".toList, "</p>".toList⟩] := by
  decide

/-! ## Claim C4 -/

/-- C4, counterexample: the token-level lookup of a missing attribute name
does not return the empty string.  `StartOrEmpty.__getitem__` calls
`dict.get`, whose missing-key result is `None` (modelled `none`), which is
not the empty string; the same holds for `PI.__getitem__`. -/
theorem c4_counterexample :
    stGetItem ⟨"a".toList, [], "<a>".toList⟩ ("b".toList) = none ∧
    (piGetItem (mkPI ("<?t a=\"1\"?>".toList)) ("b".toList)).2 = none ∧
    (none : Option Str) ≠ some [] := by
  refine ⟨by decide, by decide, by decide⟩

/-- C4 (amended): looking up a name that is not a key never raises, but the
result depends on the access path: token-level lookup (`token[name]`, which
delegates to `dict.get`) yields `None`, while indexing the underlying
`AttributeDict` directly yields the empty string via `__missing__`. -/
theorem c4_missing_lookup (t : STag) (p : PITok) (d : List (Str × Str))
    (k1 k2 k3 : Str)
    (h1 : dictGet? t.attributes k1 = none)
    (h2 : dictGet? (forcePI p).pseudoDict k2 = none)
    (h3 : dictGet? d k3 = none) :
    stGetItem t k1 = none ∧ (piGetItem p k2).2 = none ∧ dictGetD d k3 = [] := by
  refine ⟨h1, h2, ?_⟩
  unfold dictGetD
  rw [h3]
  rfl

/-- C4, witness. -/
theorem c4_missing_lookup_witness :
    dictGet? (STag.attributes ⟨"a".toList, [("x".toList, "1".toList)], "<a x=\"1\">".toList⟩)
      ("b".toList) = none ∧
    dictGet? (forcePI (mkPI ("<?t a=\"1\"?>".toList))).pseudoDict ("b".toList) = none ∧
    dictGet? [("x".toList, "1".toList)] ("b".toList) = none ∧
    (stGetItem ⟨"a".toList, [("x".toList, "1".toList)], "<a x=\"1\">".toList⟩ ("b".toList) = none ∧
     (piGetItem (mkPI ("<?t a=\"1\"?>".toList)) ("b".toList)).2 = none ∧
     dictGetD [("x".toList, "1".toList)] ("b".toList) = []) :=
  ⟨by decide, by decide, by decide,
    c4_missing_lookup _ _ _ _ _ _ (by decide) (by decide) (by decide)⟩

/-! ## Claim C6 -/

/-- C6: the well-formedness filter pops the stack on an `End` token and
raises a structural error naming both the popped start tag and the end tag
when their names differ; an `End` token on an empty stack raises the
extra-end-tag error; and the well-nested input `<a><b></b></a>` passes
every token through unchanged with no error. -/
theorem c6_wellformedness :
    (∀ (rest : List Token) (stack : List STag) (s : STag) (e : EndTag),
      s.name ≠ e.name →
      wellformedness_check (.endTag e :: rest) (s :: stack) =
        .error (.mismatch s.xml e.xml)) ∧
    (∀ (rest : List Token) (e : EndTag),
      wellformedness_check (.endTag e :: rest) [] = .error (.extraEnd e.xml)) ∧
    (tokenize ("<a><b></b></a>".toList) =
      .ok [.start ⟨"a".toList, [], "<a>".toList⟩, .start ⟨"b".toList, [], "<b>".toList⟩,
           .endTag ⟨"b".toList, "</b>".toList⟩, .endTag ⟨"a".toList, "</a>".toList⟩] ∧
     wellformedness_check
       [.start ⟨"a".toList, [], "<a>".toList⟩, .start ⟨"b".toList, [], "<b>".toList⟩,
        .endTag ⟨"b".toList, "</b>".toList⟩, .endTag ⟨"a".toList, "</a>".toList⟩] [] =
       .ok [.start ⟨"a".toList, [], "<a>".toList⟩, .start ⟨"b".toList, [], "<b>".toList⟩,
            .endTag ⟨"b".toList, "</b>".toList⟩, .endTag ⟨"a".toList, "</a>".toList⟩]) := by
  refine ⟨?_, ?_, by decide, by decide⟩
  · intro rest stack s e h
    simp [wellformedness_check, h]
  · intro rest e
    simp [wellformedness_check]

/-- C6, witness. -/
theorem c6_wellformedness_witness :
    (STag.name ⟨"b".toList, [], "<b>".toList⟩ ≠ EndTag.name ⟨"a".toList, "</a>".toList⟩) ∧
    wellformedness_check [.endTag ⟨"a".toList, "</a>".toList⟩]
      [⟨"b".toList, [], "<b>".toList⟩] =
      .error (.mismatch ("<b>".toList) ("</a>".toList)) :=
  ⟨by decide, c6_wellformedness.1 [] [] ⟨"b".toList, [], "<b>".toList⟩
    ⟨"a".toList, "</a>".toList⟩ (by decide)⟩

/-! ## Claim C8 -/

/-- C8: starting from `<?xml version="1.0" encoding="utf-8"?>`, deleting
the pseudo-attribute `encoding` and then setting `encoding` to `x` yields
exactly `<?xml version="1.0" encoding="x"?>` — the recorded spans cut the
old pair out of the instruction cleanly and the new pair is appended once,
with no residual fragments and no duplicates. -/
theorem c8_pseudo_span_consistency :
    (piDelItem (mkXmlDecl ("<?xml version=\"1.0\" encoding=\"utf-8\"?>".toList))
        ("encoding".toList)).map
      (fun t => (piSetItem t ("encoding".toList) ("x".toList)).xml) =
    some ("<?xml version=\"1.0\" encoding=\"x\"?>".toList) := by
  decide

/-! ## Claim C9 -/

/-- C9, counterexample: deleting an absent pseudo-attribute from a `PI`
token raises.  `PI.__delitem__` survives the `AttributeDict` deletion (a
silent no-op) but then evaluates `spans[name]` on a plain dict, raising
`KeyError` (modelled by `none`). -/
theorem c9_counterexample :
    piDelItem (mkPI ("<?t a=\"1\"?>".toList)) ("b".toList) = none := by
  decide

/-- C9 (amended): deleting an absent attribute from a `Start`/`Empty`
token is a silent no-op that leaves the token bit-for-bit unchanged, and so
is the underlying `AttributeDict` deletion; but deleting an absent
pseudo-attribute from a `PI` token raises a `KeyError` from the spans
lookup. -/
theorem c9_delete_absent (t : STag) (e : Bool) (p : PITok)
    (d : List (Str × Str)) (k1 k2 k3 : Str)
    (h1 : hasKey t.attributes k1 = false)
    (h2 : dictGet? (forcePI p).pseudoSpans k2 = none)
    (h3 : hasKey d k3 = false) :
    stDelAttr e t k1 = t ∧ piDelItem p k2 = none ∧ dictDel d k3 = d := by
  refine ⟨?_, ?_, ?_⟩
  · unfold stDelAttr
    rw [h1]
    simp
  · simp only [piDelItem, PITok.pseudoSpans] at *
    rw [h2]
  · unfold dictDel
    rw [h3]
    simp

/-- C9, witness. -/
theorem c9_delete_absent_witness :
    hasKey (STag.attributes ⟨"a".toList, [("x".toList, "1".toList)], "<a x=\"1\">".toList⟩)
      ("y".toList) = false ∧
    dictGet? (forcePI (mkPI ("<?t a=\"1\"?>".toList))).pseudoSpans ("c".toList) = none ∧
    hasKey [(("x".toList : Str), ("1".toList : Str))] ("y".toList) = false ∧
    (stDelAttr false ⟨"a".toList, [("x".toList, "1".toList)], "<a x=\"1\">".toList⟩
        ("y".toList) = ⟨"a".toList, [("x".toList, "1".toList)], "<a x=\"1\">".toList⟩ ∧
     piDelItem (mkPI ("<?t a=\"1\"?>".toList)) ("c".toList) = none ∧
     dictDel [(("x".toList : Str), ("1".toList : Str))] ("y".toList) =
       [(("x".toList : Str), ("1".toList : Str))]) :=
  ⟨by decide, by decide, by decide,
    c9_delete_absent _ _ _ _ _ _ _ (by decide) (by decide) (by decide)⟩

/-! ## Claim C10 -/

/-- C10: on a `PI` token freshly constructed from literal text the
pseudo-attribute cache is `None`, so the membership test returns `False`
for every name — including names occurring as `name="value"` pairs inside
the instruction — and the same holds again after a wholesale replacement
of the `instruction` field; `__contains__` reads the cache without ever
triggering the lazy parse. -/
theorem c10_contains_before_parse (xml k v : Str) (t : PITok) :
    (mkPI xml).pseudo = none ∧
    piContains (mkPI xml) k = false ∧
    (piSetInstruction t v).pseudo = none ∧
    piContains (piSetInstruction t v) k = false :=
  ⟨rfl, rfl, rfl, rfl⟩

/-! ## Claim C1: supporting lemmas -/

/-- The shallow parsing expression matches at every position: the match at
a non-empty suffix is non-empty. -/
theorem rexMatchLen_pos {cs : Str} (h : cs ≠ []) : 1 ≤ rexMatchLen cs := by
  match cs with
  | c :: r =>
    simp only [rexMatchLen]
    by_cases hc : c = '<'
    · rw [if_pos hc]; omega
    · rw [if_neg hc]
      simp only [cnt, decide_eq_true_eq]
      rw [if_pos hc]
      omega

theorem concat_tokens_append (a b : List Token) :
    concat_tokens (a ++ b) = concat_tokens a ++ concat_tokens b := by
  simp [concat_tokens]

/-- The alternatives of `DeclCE` determine the prefix of the declaration. -/
theorem declCE_shape {r : Str} {m : Nat} (h : declCE r = some m) :
    (∃ k rr, r = '-' :: '-' :: rr ∧ m = k + 2) ∨
    (∃ k rr, r = '[' :: 'C' :: 'D' :: 'A' :: 'T' :: 'A' :: '[' :: rr ∧ m = k + 7) ∨
    (∃ k rr, r = 'D' :: 'O' :: 'C' :: 'T' :: 'Y' :: 'P' :: 'E' :: rr ∧ m = k + 7) := by
  unfold declCE at h
  by_cases h1 : r.take 2 = "--".toList
  · rw [if_pos h1] at h
    left
    refine ⟨(commentCE (r.drop 2)).getD 0, r.drop 2, ?_, ?_⟩
    · have hr := List.take_append_drop 2 r
      rw [h1] at hr
      exact hr.symm
    · injection h with h
      omega
  · rw [if_neg h1] at h
    by_cases h2 : r.take 7 = "[CDATA[".toList
    · rw [if_pos h2] at h
      right; left
      refine ⟨(cdataCE (r.drop 7)).getD 0, r.drop 7, ?_, ?_⟩
      · have hr := List.take_append_drop 7 r
        rw [h2] at hr
        exact hr.symm
      · injection h with h
        omega
    · rw [if_neg h2] at h
      by_cases h3 : r.take 7 = "DOCTYPE".toList
      · rw [if_pos h3] at h
        right; right
        refine ⟨(docTypeCE (r.drop 7)).getD 0, r.drop 7, ?_, ?_⟩
        · have hr := List.take_append_drop 7 r
          rw [h3] at hr
          exact hr.symm
        · injection h with h
          omega
      · rw [if_neg h3] at h
        exact absurd h (by simp)

theorem mkEnd_ok_xml {c : Str} {e : EndTag} (h : mkEnd c = some e) : e.xml = c := by
  unfold mkEnd at h
  split at h
  · obtain rfl : _ = e := Option.some.injEq _ _ ▸ h
    rfl
  · exact absurd h (by simp)

theorem mkDoctype_ok_xml {c : Str} {d : DoctypeTok} (h : mkDoctype c = some d) :
    d.xml = c := by
  unfold mkDoctype at h
  cases hs : searchDoctype (c.length + 1) c with
  | none => rw [hs] at h; exact absurd h (by simp)
  | some t =>
    rw [hs] at h
    simp only [Option.map_some', Option.some.injEq] at h
    subst h
    rfl

theorem mkSTag_ok_xml {b : Bool} {c : Str} {t : STag} (h : mkSTag b c = some t)
    (ha : t.attributes = []) : t.xml = c := by
  unfold mkSTag at h
  cases hs : searchElemTag (c.length + 1) c with
  | none => rw [hs] at h; exact absurd h (by simp)
  | some m =>
    rw [hs] at h
    simp only [Option.map_some', Option.some.injEq] at h
    subst h
    simp only [STag.attributes] at ha
    show (if _ = ([] : List (Str × Str)) then c else _) = c
    rw [if_pos ha]

theorem forcePI_dict_empty_xml {t : PITok} (hp : t.pseudo = none)
    (hd : (forcePI t).pseudoDict = []) : (forcePI t).xml = t.xml := by
  have hn : needsParse t = true := by simp [needsParse, hp]
  by_cases h : (locatePseudo t.instruction).dict = []
  · unfold forcePI
    rw [if_pos hn, if_pos h]
  · exfalso
    apply h
    unfold forcePI at hd
    rw [if_pos hn, if_neg h] at hd
    simpa [reserializePI, PITok.pseudoDict] using hd

theorem elemTagCE_pos {cs : Str} {v : Nat} (h : elemTagCE cs = some v) : 1 ≤ v := by
  unfold elemTagCE at h
  cases hm : matchName cs with
  | none => rw [hm] at h; exact absurd h (by simp)
  | some n =>
    rw [hm] at h
    simp only [Option.map_some', Option.some.injEq] at h
    have hn : 1 ≤ n := by
      unfold matchName at hm
      split at hm
      · exact absurd hm (by simp)
      · split at hm
        · injection hm with hm; omega
        · exact absurd hm (by simp)
    subst h
    split <;> omega

theorem matchName_head {c : Char} {r : Str} {n : Nat}
    (h : matchName (c :: r) = some n) : isNameStrt c = true := by
  by_cases hc : isNameStrt c = true
  · exact hc
  · simp [matchName, hc] at h

/-- A name-start character is none of the markup dispatch characters. -/
theorem isNameStrt_not_special {c : Char} (h : isNameStrt c = true) :
    c ≠ '!' ∧ c ≠ '?' ∧ c ≠ '/' := by
  refine ⟨?_, ?_, ?_⟩ <;> rintro rfl <;> simp [isNameStrt] at h

/-- Classifying one `XML_SPE` match slice yields tokens whose concatenated
`xml` reproduces the slice, provided the slice is canonically stable. -/
theorem classify_chunk_concat (cs : Str) (pos : Nat) (ts1 : List Token)
    (hne : cs ≠ [])
    (hcl : classifyChunk (cs.take (rexMatchLen cs)) pos = .ok ts1)
    (hcan : canonStableAt (cs.take (rexMatchLen cs), pos) = true) :
    concat_tokens ts1 = cs.take (rexMatchLen cs) := by
  obtain ⟨ch, r, rfl⟩ : ∃ ch r, cs = ch :: r := by
    cases cs with
    | nil => exact absurd rfl hne
    | cons a b => exact ⟨a, b, rfl⟩
  by_cases hch : ch = '<'
  case neg =>
    have hn : rexMatchLen (ch :: r) = cnt (fun c => decide (c ≠ '<')) r + 1 := by
      simp [rexMatchLen, hch, cnt]
    rw [hn, List.take_succ_cons] at hcl ⊢
    unfold classifyChunk at hcl
    rw [if_pos (by simp [hch])] at hcl
    obtain rfl : [Token.text (ch :: r.take (cnt (fun c => decide (c ≠ '<')) r))] = ts1 := by
      injection hcl
    simp [concat_tokens, Token.xml]
  case pos =>
    subst hch
    have hm : rexMatchLen ('<' :: r) = markupLen r + 1 := by
      simp [rexMatchLen, Nat.add_comm]
    rw [hm, List.take_succ_cons] at hcl hcan ⊢
    by_cases hg : ('<' :: r.take (markupLen r)).getLast? = some '>'
    case neg =>
      unfold classifyChunk at hcl
      rw [if_neg (by simp)] at hcl
      rw [if_pos hg] at hcl
      obtain rfl : [Token.error ⟨'<' :: r.take (markupLen r), _⟩] = ts1 := by
        injection hcl
      simp [concat_tokens, Token.xml]
    case pos =>
      cases r with
      | nil =>
        rw [show markupLen ([] : Str) = 0 from rfl] at hg
        exact absurd hg (by decide)
      | cons c2 r2 =>
        by_cases h2 : c2 = '!'
        · subst h2
          have hml : markupLen ('!' :: r2) = 1 + (declCE r2).getD 0 := by
            simp [markupLen]
          rw [hml] at hg hcl hcan ⊢
          cases hd : declCE r2 with
          | none =>
            rw [hd] at hg
            simp only [Option.getD_none, List.take_succ_cons, List.take_zero] at hg
            exact absurd hg (by decide)
          | some m =>
            rw [hd] at hg hcl hcan
            simp only [Option.getD_some] at hg hcl hcan ⊢
            rcases declCE_shape hd with ⟨k, rr, rfl, rfl⟩ | ⟨k, rr, rfl, rfl⟩ | ⟨k, rr, rfl, rfl⟩
            · -- comment
              rw [show 1 + (k + 2) = k + 3 by omega] at hg hcl hcan ⊢
              simp only [List.take_succ_cons] at hg hcl hcan ⊢
              unfold classifyChunk at hcl
              rw [if_neg (by simp)] at hcl
              rw [if_neg (by simp [hg])] at hcl
              simp only [List.drop_succ_cons, List.drop_zero, List.head?_cons,
                Option.getD_some] at hcl
              rw [if_neg (by decide), if_pos (by decide)] at hcl
              rw [if_pos (by simp [List.take_succ_cons])] at hcl
              obtain rfl : [Token.comment (mkComment _)] = ts1 := by injection hcl
              simp [concat_tokens, Token.xml, mkComment]
            · -- CDATA
              rw [show 1 + (k + 7) = k + 8 by omega] at hg hcl hcan ⊢
              simp only [List.take_succ_cons] at hg hcl hcan ⊢
              unfold classifyChunk at hcl
              rw [if_neg (by simp)] at hcl
              rw [if_neg (by simp [hg])] at hcl
              simp only [List.drop_succ_cons, List.drop_zero, List.head?_cons,
                Option.getD_some] at hcl
              rw [if_neg (by decide), if_pos (by decide)] at hcl
              rw [if_neg (by simp [List.take_succ_cons])] at hcl
              rw [if_pos (by simp [List.drop_succ_cons])] at hcl
              obtain rfl : [Token.cdata (mkCdata _)] = ts1 := by injection hcl
              simp [concat_tokens, Token.xml, mkCdata]
            · -- DOCTYPE
              rw [show 1 + (k + 7) = k + 8 by omega] at hg hcl hcan ⊢
              simp only [List.take_succ_cons] at hg hcl hcan ⊢
              unfold classifyChunk at hcl
              rw [if_neg (by simp)] at hcl
              rw [if_neg (by simp [hg])] at hcl
              simp only [List.drop_succ_cons, List.drop_zero, List.head?_cons,
                Option.getD_some] at hcl
              rw [if_neg (by decide), if_pos (by decide)] at hcl
              rw [if_neg (by simp [List.take_succ_cons])] at hcl
              rw [if_neg (by simp [List.drop_succ_cons])] at hcl
              rw [if_pos (by simp [List.take_succ_cons])] at hcl
              cases hdt : mkDoctype ('<' :: '!' :: 'D' :: 'O' :: 'C' :: 'T' :: 'Y' :: 'P' :: 'E' :: rr.take k) with
              | none => rw [hdt] at hcl; exact absurd hcl (by simp)
              | some d =>
                rw [hdt] at hcl
                obtain rfl : [Token.doctype d] = ts1 := by injection hcl
                simp [concat_tokens, Token.xml, mkDoctype_ok_xml hdt]
        · by_cases h3 : c2 = '?'
          · subst h3
            have hml : markupLen ('?' :: r2) = 1 + (piCE r2).getD 0 := by
              simp [markupLen]
            rw [hml] at hg hcl hcan ⊢
            rw [show 1 + (piCE r2).getD 0 = (piCE r2).getD 0 + 1 by omega] at hg hcl hcan ⊢
            rw [List.take_succ_cons] at hg hcl hcan ⊢
            have hcl0 := hcl
            unfold classifyChunk at hcl
            rw [if_neg (by simp)] at hcl
            rw [if_neg (by simp [hg])] at hcl
            simp only [List.drop_succ_cons, List.drop_zero, List.head?_cons,
              Option.getD_some] at hcl
            rw [if_neg (by decide), if_neg (by decide), if_pos (by decide)] at hcl
            by_cases hx : startsXmlDecl ('<' :: '?' :: r2.take ((piCE r2).getD 0)) = true
            · rw [if_pos hx] at hcl
              obtain rfl : [Token.xmlDecl (mkXmlDecl _)] = ts1 := by injection hcl
              by_cases hpd : (mkXmlDecl ('<' :: '?' :: r2.take ((piCE r2).getD 0))).pseudoDict = []
              · have := forcePI_dict_empty_xml (t := mkPI ('<' :: '?' :: r2.take ((piCE r2).getD 0))) rfl hpd
                simp [concat_tokens, Token.xml, mkXmlDecl, this]
                rfl
              · -- canonically stable hypothesis supplies the equality
                unfold canonStableAt at hcan
                rw [hcl0] at hcan
                simp only [Bool.or_eq_true, decide_eq_true_eq] at hcan
                rcases hcan with hcan | hcan
                · exact absurd hcan hpd
                · simp [concat_tokens, Token.xml, hcan]
            · rw [if_neg hx] at hcl
              obtain rfl : [Token.pi (mkPI _)] = ts1 := by injection hcl
              simp [concat_tokens, Token.xml, mkPI]
          · by_cases h4 : c2 = '/'
            · subst h4
              have hml : markupLen ('/' :: r2) = 1 + (endTagCE r2).getD 0 := by
                simp [markupLen]
              rw [hml] at hg hcl hcan ⊢
              rw [show 1 + (endTagCE r2).getD 0 = (endTagCE r2).getD 0 + 1 by omega] at hg hcl hcan ⊢
              rw [List.take_succ_cons] at hg hcl hcan ⊢
              unfold classifyChunk at hcl
              rw [if_neg (by simp)] at hcl
              rw [if_neg (by simp [hg])] at hcl
              simp only [List.drop_succ_cons, List.drop_zero, List.head?_cons,
                Option.getD_some] at hcl
              rw [if_pos (by decide)] at hcl
              cases he : mkEnd ('<' :: '/' :: r2.take ((endTagCE r2).getD 0)) with
              | none => rw [he] at hcl; exact absurd hcl (by simp)
              | some e =>
                rw [he] at hcl
                obtain rfl : [Token.endTag e] = ts1 := by injection hcl
                simp [concat_tokens, Token.xml, mkEnd_ok_xml he]
            · -- start or empty tag
              have hml : markupLen (c2 :: r2) = (elemTagCE (c2 :: r2)).getD 0 := by
                simp [markupLen, h2, h3, h4]
              rw [hml] at hg hcl hcan ⊢
              cases hel : elemTagCE (c2 :: r2) with
              | none =>
                rw [hel] at hg
                simp only [Option.getD_none, List.take_zero] at hg
                exact absurd hg (by decide)
              | some v =>
                rw [hel] at hg hcl hcan
                simp only [Option.getD_some] at hg hcl hcan ⊢
                obtain ⟨w, rfl⟩ : ∃ w, v = w + 1 := by
                  have := elemTagCE_pos hel
                  exact ⟨v - 1, by omega⟩
                rw [List.take_succ_cons] at hg hcl hcan ⊢
                have hns : isNameStrt c2 = true := by
                  unfold elemTagCE at hel
                  cases hm2 : matchName (c2 :: r2) with
                  | none => rw [hm2] at hel; exact absurd hel (by simp)
                  | some n => exact matchName_head hm2
                obtain ⟨hb1, hb2, hb3⟩ := isNameStrt_not_special hns
                have hcl0 := hcl
                unfold classifyChunk at hcl
                rw [if_neg (by simp)] at hcl
                rw [if_neg (by simp [hg])] at hcl
                simp only [List.drop_succ_cons, List.drop_zero, List.head?_cons,
                  Option.getD_some] at hcl
                rw [if_neg (by simpa using hb3), if_neg (by simpa using hb1),
                  if_neg (by simpa using hb2)] at hcl
                by_cases hsl : secondLast ('<' :: c2 :: r2.take w) = some '/'
                · rw [if_pos hsl] at hcl
                  cases hst : mkSTag true ('<' :: c2 :: r2.take w) with
                  | none => rw [hst] at hcl; exact absurd hcl (by simp)
                  | some t =>
                    rw [hst] at hcl
                    obtain rfl : [Token.empty t] = ts1 := by injection hcl
                    by_cases hat : t.attributes = []
                    · simp [concat_tokens, Token.xml, mkSTag_ok_xml hst hat]
                    · unfold canonStableAt at hcan
                      rw [hcl0] at hcan
                      simp only [Bool.or_eq_true, decide_eq_true_eq] at hcan
                      rcases hcan with hcan | hcan
                      · exact absurd hcan hat
                      · simp [concat_tokens, Token.xml, hcan]
                · rw [if_neg hsl] at hcl
                  cases hst : mkSTag false ('<' :: c2 :: r2.take w) with
                  | none => rw [hst] at hcl; exact absurd hcl (by simp)
                  | some t =>
                    rw [hst] at hcl
                    obtain rfl : [Token.start t] = ts1 := by injection hcl
                    by_cases hat : t.attributes = []
                    · simp [concat_tokens, Token.xml, mkSTag_ok_xml hst hat]
                    · unfold canonStableAt at hcan
                      rw [hcl0] at hcan
                      simp only [Bool.or_eq_true, decide_eq_true_eq] at hcan
                      rcases hcan with hcan | hcan
                      · exact absurd hcan hat
                      · simp [concat_tokens, Token.xml, hcan]

/-- The tokenizer loop reproduces its input, chunk by chunk. -/
theorem tokenizeGo_concat (fuel : Nat) :
    ∀ (cs : Str) (pos : Nat) (ts : List Token),
    cs.length < fuel →
    tokenizeGo fuel cs pos = .ok ts →
    (∀ cp ∈ chunksPosGo fuel cs pos, canonStableAt cp = true) →
    concat_tokens ts = cs := by
  induction fuel with
  | zero => intro cs pos ts h _ _; omega
  | succ fuel ih =>
    intro cs pos ts hlen htok hcan
    cases cs with
    | nil =>
      obtain rfl : ([] : List Token) = ts := by
        injection htok
      rfl
    | cons ch r =>
      have hchunks : chunksPosGo (fuel + 1) (ch :: r) pos =
          ((ch :: r).take (rexMatchLen (ch :: r)), pos) ::
            chunksPosGo fuel ((ch :: r).drop (rexMatchLen (ch :: r)))
              (pos + rexMatchLen (ch :: r)) := rfl
      have htok' : (do
          let ts1 ← classifyChunk ((ch :: r).take (rexMatchLen (ch :: r))) pos
          let rest ← tokenizeGo fuel ((ch :: r).drop (rexMatchLen (ch :: r)))
            (pos + rexMatchLen (ch :: r))
          Except.ok (ts1 ++ rest)) = Except.ok ts := htok
      clear htok
      rename' htok' => htok
      cases hcls : classifyChunk ((ch :: r).take (rexMatchLen (ch :: r))) pos with
      | error e =>
        rw [hcls] at htok
        exact absurd htok (by simp [Bind.bind, Except.bind])
      | ok ts1 =>
        rw [hcls] at htok
        simp only [Bind.bind, Except.bind] at htok
        cases hrest : tokenizeGo fuel ((ch :: r).drop (rexMatchLen (ch :: r)))
            (pos + rexMatchLen (ch :: r)) with
        | error e =>
          rw [hrest] at htok
          exact absurd htok (by simp)
        | ok ts2 =>
          rw [hrest] at htok
          obtain rfl : ts1 ++ ts2 = ts := by injection htok
          have hpos : 1 ≤ rexMatchLen (ch :: r) := rexMatchLen_pos (by simp)
          have h1 := classify_chunk_concat (ch :: r) pos ts1 (by simp) hcls
            (hcan _ (by rw [hchunks]; exact List.mem_cons_self _ _))
          have h2 := ih ((ch :: r).drop (rexMatchLen (ch :: r)))
            (pos + rexMatchLen (ch :: r)) ts2
            (by simp only [List.length_drop, List.length_cons] at hlen ⊢; omega)
            hrest
            (fun cp hcp => hcan cp (by rw [hchunks]; exact List.mem_cons_of_mem _ hcp))
          rw [concat_tokens_append, h1, h2, List.take_append_drop]

/-! ## Claim C1 -/

/-- C1, counterexample: round-trip fails on inputs whose start tags are not
already in canonical attribute form, even though no `Error` token occurs.
`<a  x="1">` (two spaces) tokenizes to a single `Start` token whose
serialized text is the normalized `<a x="1">`, because the attribute
insertion during construction triggers reserialization. -/
theorem c1_counterexample :
    tokenize ("<a  x=\"1\">".toList) =
      .ok [.start ⟨"a".toList, [("x".toList, "1".toList)], "<a x=\"1\">".toList⟩] ∧
    (∀ t ∈ [Token.start ⟨"a".toList, [("x".toList, "1".toList)], "<a x=\"1\">".toList⟩],
      t.isError = false) ∧
    concat_tokens [Token.start ⟨"a".toList, [("x".toList, "1".toList)], "<a x=\"1\">".toList⟩]
      ≠ "<a  x=\"1\">".toList := by
  refine ⟨by decide, by decide, by decide⟩

/-- C1 (amended): concatenating the serialized text of every token produced
by `tokenize`, before any mutation, equals the original input for every
input whose match slices are all canonically stable — that is, every
start/empty tag carrying at least one attribute and every XML declaration
carrying at least one pseudo-attribute already reads exactly as its
canonical rendering (double-quoted values, single-space separation); all
other token variants, `Error` tokens included, always reproduce their slice
verbatim, so the absence of `Error` tokens is neither necessary nor
sufficient for the round-trip. -/
theorem c1_roundtrip_canonical (cs : Str) (ts : List Token)
    (hok : tokenize cs = .ok ts)
    (hcanon : ∀ cp ∈ chunksPos cs, canonStableAt cp = true) :
    concat_tokens ts = cs :=
  tokenizeGo_concat (cs.length + 1) cs 0 ts (by omega) hok hcanon

/-! ## Claim C5: supporting lemmas

`expand_empty_tags` reserializes the `Empty` token with the `Start`
template, strips every `/`, and re-parses.  The lemmas below show that for
a well-formed name and attribute list (valid names, attribute values free
of `<`, `"` and `/`, unduplicated keys) the re-parse recovers exactly the
original name and attributes. -/

/-- A syntactically valid `Name`. -/
def validNameB : Str → Bool
  | [] => false
  | c :: cs => isNameStrt c && cs.all isNameChar

/-- Well-formedness of an attribute list for slash-free canonical
round-tripping: valid names, values free of `<`, `"`, `/`, distinct keys. -/
def attrsWfB (attrs : List (Str × Str)) : Bool :=
  attrs.all (fun kv => validNameB kv.1 &&
    kv.2.all (fun c => decide (c ≠ '<' ∧ c ≠ '"' ∧ c ≠ '/'))) &&
  nodupKeysB attrs

theorem isS_false_of_nameStrt {c : Char} (h : isNameStrt c = true) : isS c = false := by
  by_cases hs : isS c = true
  · simp only [isS, decide_eq_true_eq] at hs
    rcases hs with rfl | rfl | rfl | rfl <;> exact absurd h (by decide)
  · cases hb : isS c
    · rfl
    · exact absurd hb hs

theorem isPySpace_false_of_nameChar {c : Char} (h : isNameChar c = true) :
    isPySpace c = false := by
  by_cases hs : isPySpace c = true
  · simp only [isPySpace, decide_eq_true_eq] at hs
    rcases hs with rfl | rfl | rfl | rfl | rfl | rfl <;> exact absurd h (by decide)
  · cases hb : isPySpace c
    · rfl
    · exact absurd hb hs

theorem cnt_append_of_all {p : Char → Bool} {a : Str} (b : Str)
    (ha : ∀ c ∈ a, p c = true) : cnt p (a ++ b) = a.length + cnt p b := by
  induction a with
  | nil => simp [cnt]
  | cons c a' ih =>
    have hc : p c = true := ha c (by simp)
    have hstep : cnt p ((c :: a') ++ b) = cnt p (a' ++ b) + 1 := by
      simp [cnt, hc]
    rw [hstep, ih (fun d hd => ha d (by simp [hd]))]
    simp
    omega

theorem cnt_cons_false {p : Char → Bool} {c : Char} (r : Str) (h : p c = false) :
    cnt p (c :: r) = 0 := by
  simp [cnt, h]

theorem validNameB_nonempty {nm : Str} (h : validNameB nm = true) : nm ≠ [] := by
  cases nm with
  | nil => exact absurd h (by simp [validNameB])
  | cons a b => simp

theorem matchName_append {nm : Str} (X : Str) (h : validNameB nm = true)
    (hX : cnt isNameChar X = 0) : matchName (nm ++ X) = some nm.length := by
  cases nm with
  | nil => exact absurd h (by simp [validNameB])
  | cons c cs =>
    simp only [validNameB, Bool.and_eq_true, List.all_eq_true] at h
    simp only [List.cons_append, matchName, h.1, if_pos]
    rw [cnt_append_of_all X h.2, hX]
    simp

theorem cnt_isS_name_append {nm : Str} (X : Str) (h : validNameB nm = true) :
    cnt isS (nm ++ X) = 0 := by
  cases nm with
  | nil => exact absurd h (by simp [validNameB])
  | cons c cs =>
    simp only [validNameB, Bool.and_eq_true] at h
    exact cnt_cons_false _ (isS_false_of_nameStrt h.1)

theorem escAttValue_id {v : Str} (hv : ∀ c ∈ v, c ≠ '"') : escAttValue v = v := by
  induction v with
  | nil => rfl
  | cons c r ih =>
    simp only [escAttValue]
    rw [if_neg (hv c (by simp)), ih (fun d hd => hv d (by simp [hd]))]
    rfl

theorem attValSE_render {v : Str} (T : Str)
    (hv : ∀ c ∈ v, c ≠ '<' ∧ c ≠ '"') :
    attValSE ('"' :: (v ++ '"' :: T)) = some (v.length + 2) := by
  have hcnt : cnt (fun d => decide (d ≠ '<' ∧ d ≠ '"')) (v ++ '"' :: T) = v.length := by
    rw [cnt_append_of_all _ (fun c hc => by simpa using hv c hc),
      cnt_cons_false _ (by decide)]
    omega
  have hdrop : (v ++ '"' :: T).drop v.length = '"' :: T := List.drop_left v _
  simp only [attValSE, hcnt, hdrop]
  simp

theorem attAnch_render {k v : Str} (R : Str) (hk : validNameB k = true)
    (hv : ∀ c ∈ v, c ≠ '<' ∧ c ≠ '"') :
    attAnch (' ' :: (k ++ ('=' :: '"' :: (v ++ '"' :: R)))) =
      some ⟨k, '"' :: (v ++ ['"']), 1 + k.length + 0 + 1 + 0 + (v.length + 2)⟩ := by
  have hX : cnt isNameChar ('=' :: '"' :: (v ++ '"' :: R)) = 0 :=
    cnt_cons_false _ (by decide)
  have hs : cnt isS (' ' :: (k ++ ('=' :: '"' :: (v ++ '"' :: R)))) = 1 := by
    have h0 : cnt isS (k ++ ('=' :: '"' :: (v ++ '"' :: R))) = 0 :=
      cnt_isS_name_append _ hk
    simp [cnt, h0, isS]
  have hn : matchName ((' ' :: (k ++ ('=' :: '"' :: (v ++ '"' :: R)))).drop 1) =
      some k.length := by
    simpa using matchName_append _ hk hX
  have hd1 : (' ' :: (k ++ ('=' :: '"' :: (v ++ '"' :: R)))).drop (1 + k.length) =
      '=' :: '"' :: (v ++ '"' :: R) := by
    rw [show 1 + k.length = k.length + 1 by omega]
    simp only [List.drop_succ_cons]
    exact List.drop_left k _
  have hs2 : cnt isS ('=' :: '"' :: (v ++ '"' :: R)) = 0 := cnt_cons_false _ (by decide)
  have hs3 : cnt isS ('"' :: (v ++ '"' :: R)) = 0 := cnt_cons_false _ (by decide)
  have hd2 : (' ' :: (k ++ ('=' :: '"' :: (v ++ '"' :: R)))).drop (1 + k.length + 1) =
      '"' :: (v ++ '"' :: R) := by
    rw [← List.drop_drop, hd1]
    simp
  have hval : attValSE ('"' :: (v ++ '"' :: R)) = some (v.length + 2) :=
    attValSE_render R hv
  have htk : ((' ' :: (k ++ ('=' :: '"' :: (v ++ '"' :: R)))).drop 1).take k.length = k := by
    simpa using List.take_left k _
  have htv : ('"' :: (v ++ '"' :: R)).take (v.length + 2) = '"' :: (v ++ ['"']) := by
    rw [List.take_succ_cons]
    congr 1
    rw [show v ++ '"' :: R = (v ++ ['"']) ++ R by simp]
    exact List.take_left' (by simp)
  simp only [attAnch, Option.bind_eq_bind, hs, hn, Option.some_bind, hd1, hs2,
    Nat.add_zero, hd2, hs3, hval, htk, htv]
  simp

/-- The pair well-formedness condition used for attribute round-trips. -/
def attrPairOk (kv : Str × Str) : Prop :=
  validNameB kv.1 = true ∧ ∀ c ∈ kv.2, c ≠ '<' ∧ c ≠ '"' ∧ c ≠ '/'

theorem attrsToXml_cons {k v : Str} (tl : List (Str × Str))
    (hq : escAttValue v = v) :
    attrsToXml ((k, v) :: tl) =
      ' ' :: (k ++ ('=' :: '"' :: (v ++ '"' :: attrsToXml tl))) := by
  simp [attrsToXml, hq]

theorem attrIter_render {k v : Str} (R : Str) (hk : validNameB k = true)
    (hv : ∀ c ∈ v, c ≠ '<' ∧ c ≠ '"') :
    attrIter (' ' :: (k ++ ('=' :: '"' :: (v ++ '"' :: R)))) =
      some (k.length + v.length + 4) := by
  rw [attrIter, attAnch_render R hk hv]
  simp
  omega

theorem attrIter_not_space {c : Char} (X : Str) (h : isS c = false) :
    attrIter (c :: X) = none := by
  simp [attrIter, attAnch, cnt_cons_false _ h]

theorem frag_assoc (k v R : Str) :
    (' ' :: (k ++ ('=' :: '"' :: (v ++ ['"'])))) ++ R =
      ' ' :: (k ++ ('=' :: '"' :: (v ++ '"' :: R))) := by
  simp

theorem frag_length (k v : Str) :
    (' ' :: (k ++ ('=' :: '"' :: (v ++ ['"'])))).length = k.length + v.length + 4 := by
  simp
  omega

theorem attrsToXml_length_ge (attrs : List (Str × Str)) :
    attrs.length ≤ (attrsToXml attrs).length := by
  induction attrs with
  | nil => simp [attrsToXml]
  | cons kv tl ih =>
    obtain ⟨k, v⟩ := kv
    simp only [attrsToXml, List.length_append, List.length_cons]
    omega

theorem cnt_nameChar_attrsToXml (attrs : List (Str × Str)) (T : Str)
    (hT : cnt isNameChar T = 0) :
    cnt isNameChar (attrsToXml attrs ++ T) = 0 := by
  cases attrs with
  | nil => simpa [attrsToXml] using hT
  | cons kv tl =>
    obtain ⟨k, v⟩ := kv
    simp only [attrsToXml, List.cons_append, List.append_assoc]
    exact cnt_cons_false _ (by decide)

theorem attrLoop_render_aux :
    ∀ (attrs : List (Str × Str)) (fuel : Nat) (rest : Str),
    attrs.length < fuel →
    (∀ kv ∈ attrs, attrPairOk kv) →
    rest.head? = some '>' →
    attrLoop fuel (attrsToXml attrs ++ rest) = (attrsToXml attrs).length := by
  intro attrs
  induction attrs with
  | nil =>
    intro fuel rest hf _ hr
    obtain ⟨c, rest', rfl⟩ : ∃ c rest', rest = c :: rest' := by
      cases rest with
      | nil => simp at hr
      | cons a b => exact ⟨a, b, rfl⟩
    obtain rfl : c = '>' := by simpa using hr
    cases fuel with
    | zero => omega
    | succ f =>
      simp [attrsToXml, attrLoop,
        attrIter_not_space (c := '>') rest' (by decide)]
  | cons kv tl ih =>
    intro fuel rest hf hwf hr
    obtain ⟨k, v⟩ := kv
    have hpair : attrPairOk (k, v) := hwf _ (by simp)
    have hq : escAttValue v = v :=
      escAttValue_id (fun c hc => ((hpair.2 c hc).2.1))
    have hv' : ∀ c ∈ v, c ≠ '<' ∧ c ≠ '"' :=
      fun c hc => ⟨(hpair.2 c hc).1, (hpair.2 c hc).2.1⟩
    cases fuel with
    | zero => omega
    | succ f =>
      rw [attrsToXml_cons tl hq]
      have hshape : (' ' :: (k ++ ('=' :: '"' :: (v ++ '"' :: attrsToXml tl)))) ++ rest =
          ' ' :: (k ++ ('=' :: '"' :: (v ++ '"' :: (attrsToXml tl ++ rest)))) := by
        simp
      rw [hshape]
      have hit := attrIter_render (attrsToXml tl ++ rest) hpair.1 hv'
      have hdrop : (' ' :: (k ++ ('=' :: '"' :: (v ++ '"' :: (attrsToXml tl ++ rest))))).drop
          (k.length + v.length + 4) = attrsToXml tl ++ rest := by
        rw [← frag_assoc]
        rw [← frag_length k v]
        exact List.drop_left _ _
      simp only [attrLoop, hit, hdrop]
      rw [ih f rest (by simpa using hf) (fun kv hkv => hwf kv (by simp [hkv])) hr]
      have : (' ' :: (k ++ ('=' :: '"' :: (v ++ '"' :: attrsToXml tl)))).length =
          k.length + v.length + 4 + (attrsToXml tl).length := by
        simp
        omega
      rw [this]

theorem elemTagAnch_render (nm : Str) (attrs : List (Str × Str))
    (hnm : validNameB nm = true)
    (hwf : ∀ kv ∈ attrs, attrPairOk kv) :
    elemTagAnch (startRender nm attrs) = some ⟨nm, attrsToXml attrs⟩ := by
  have hX : cnt isNameChar (attrsToXml attrs ++ ['>']) = 0 :=
    cnt_nameChar_attrsToXml attrs ['>'] (cnt_cons_false _ (by decide))
  have hr : nm ++ attrsToXml attrs ++ ['>'] = nm ++ (attrsToXml attrs ++ ['>']) := by
    simp
  have hn : matchName (nm ++ attrsToXml attrs ++ ['>']) = some nm.length := by
    rw [hr]; exact matchName_append _ hnm hX
  have hd : (nm ++ attrsToXml attrs ++ ['>']).drop nm.length = attrsToXml attrs ++ ['>'] := by
    rw [hr]; exact List.drop_left _ _
  have hfuel : ∃ f, (nm ++ attrsToXml attrs ++ ['>']).length + 1 = f + 1 :=
    ⟨_, rfl⟩
  have hloop : attrLoop ((nm ++ attrsToXml attrs ++ ['>']).length + 1)
      (attrsToXml attrs ++ ['>']) = (attrsToXml attrs).length := by
    apply attrLoop_render_aux attrs _ ['>'] _ hwf rfl
    have h1 := attrsToXml_length_ge attrs
    simp only [List.length_append]
    omega
  have hd2 : (nm ++ attrsToXml attrs ++ ['>']).drop (nm.length + (attrsToXml attrs).length) =
      ['>'] := by
    rw [show nm ++ attrsToXml attrs ++ ['>'] = (nm ++ attrsToXml attrs) ++ ['>'] by simp]
    exact List.drop_left' (by simp)
  have hs0 : cnt isS (['>'] : Str) = 0 := cnt_cons_false _ (by decide)
  have htk : (nm ++ attrsToXml attrs ++ ['>']).take nm.length = nm := by
    rw [hr]; exact List.take_left _ _
  have htk2 : ((nm ++ attrsToXml attrs ++ ['>']).drop nm.length).take
      (attrsToXml attrs).length = attrsToXml attrs := by
    rw [hd]; exact List.take_left _ _
  simp only [elemTagAnch, startRender, Option.bind_eq_bind, hn, Option.some_bind,
    hd, hloop, hd2, hs0, Nat.add_zero, htk, htk2]
  simp

theorem searchElemTag_render (nm : Str) (attrs : List (Str × Str))
    (hnm : validNameB nm = true)
    (hwf : ∀ kv ∈ attrs, attrPairOk kv) :
    searchElemTag ((startRender nm attrs).length + 1) (startRender nm attrs) =
      some ⟨nm, attrsToXml attrs⟩ := by
  simp [searchElemTag, elemTagAnch_render nm attrs hnm hwf]

theorem stripDelims_quoted (v : Str) : stripDelims ('"' :: (v ++ ['"'])) = v := by
  simp [stripDelims]

theorem not_key_of_mem {α : Type} {l : List (Str × α)} {k : Str}
    (h : hasKey l k = false) : ∀ kv ∈ l, kv.1 ≠ k := by
  induction l with
  | nil => simp
  | cons kv' tl ih =>
    obtain ⟨k', v'⟩ := kv'
    by_cases hk : k' = k
    · simp [hasKey, hk] at h
    · simp only [hasKey, if_neg hk] at h
      intro kv hkv
      rcases List.mem_cons.mp hkv with rfl | hmem
      · exact hk
      · exact ih h kv hmem

theorem hasKey_append {α : Type} (a b : List (Str × α)) (k : Str) :
    hasKey (a ++ b) k = (hasKey a k || hasKey b k) := by
  induction a with
  | nil => simp [hasKey]
  | cons kv tl ih =>
    obtain ⟨k', v'⟩ := kv
    by_cases hk : k' = k
    · simp [hasKey, hk]
    · simp [hasKey, hk, ih]

theorem dictSet_append_fresh {α : Type} {d : List (Str × α)} {k : Str} (v : α)
    (h : hasKey d k = false) : dictSet d k v = d ++ [(k, v)] := by
  unfold dictSet
  rw [h]
  simp

theorem finditerAtt_nil (fuel pos : Nat) : finditerAtt fuel [] pos = [] := by
  cases fuel with
  | zero => rfl
  | succ f => simp [finditerAtt, attAnch, cnt]

theorem finditer_fold :
    ∀ (attrs : List (Str × Str)) (fuel pos : Nat) (acc : List (Str × Str)),
    attrs.length < fuel →
    (∀ kv ∈ attrs, attrPairOk kv) →
    nodupKeysB attrs = true →
    (∀ kv ∈ attrs, hasKey acc kv.1 = false) →
    (finditerAtt fuel (attrsToXml attrs) pos).foldl
      (fun d a => dictSet d a.name (stripDelims a.rawValue)) acc = acc ++ attrs := by
  intro attrs
  induction attrs with
  | nil =>
    intro fuel pos acc _ _ _ _
    simp [attrsToXml, finditerAtt_nil]
  | cons kv tl ih =>
    intro fuel pos acc hf hwf hnd hfresh
    obtain ⟨k, v⟩ := kv
    have hpair : attrPairOk (k, v) := hwf _ (by simp)
    have hq : escAttValue v = v :=
      escAttValue_id (fun c hc => ((hpair.2 c hc).2.1))
    have hv' : ∀ c ∈ v, c ≠ '<' ∧ c ≠ '"' :=
      fun c hc => ⟨(hpair.2 c hc).1, (hpair.2 c hc).2.1⟩
    simp only [nodupKeysB, Bool.and_eq_true, Bool.not_eq_true'] at hnd
    cases fuel with
    | zero => omega
    | succ f =>
      rw [attrsToXml_cons tl hq]
      have hk0 : validNameB k = true := hpair.1
      have hanch := attAnch_render (k := k) (v := v) (attrsToXml tl) hk0 hv'
      have hlen : 1 + k.length + 0 + 1 + 0 + (v.length + 2) = k.length + v.length + 4 := by
        omega
      rw [hlen] at hanch
      have hdrop : (' ' :: (k ++ ('=' :: '"' :: (v ++ '"' :: attrsToXml tl)))).drop
          (k.length + v.length + 4) = attrsToXml tl := by
        rw [← frag_assoc, ← frag_length k v]
        exact List.drop_left _ _
      simp only [finditerAtt, hanch, hdrop, List.foldl_cons, stripDelims_quoted]
      have hfk : hasKey acc k = false := hfresh (k, v) (by simp)
      rw [dictSet_append_fresh v hfk]
      have hargs : ∀ kv ∈ tl, hasKey (acc ++ [(k, v)]) kv.1 = false := by
        intro kv hkv
        rw [hasKey_append]
        have h1 : hasKey acc kv.1 = false := hfresh kv (by simp [hkv])
        have h2 : hasKey [(k, v)] kv.1 = false := by
          have hne : kv.1 ≠ k := not_key_of_mem hnd.1 kv hkv
          simp only [hasKey]
          rw [if_neg (fun hc => hne hc.symm)]
        rw [h1, h2]
        rfl
      rw [ih f (pos + (k.length + v.length + 4)) (acc ++ [(k, v)])
        (by simp only [List.length_cons] at hf; omega)
        (fun kv hkv => hwf kv (List.mem_cons_of_mem _ hkv)) hnd.2 hargs]
      simp

theorem mkSTag_render (nm : Str) (attrs : List (Str × Str))
    (hnm : validNameB nm = true)
    (hwf : ∀ kv ∈ attrs, attrPairOk kv)
    (hnd : nodupKeysB attrs = true) :
    mkSTag false (startRender nm attrs) = some ⟨nm, attrs, startRender nm attrs⟩ := by
  unfold mkSTag
  rw [searchElemTag_render nm attrs hnm hwf]
  simp only [Option.map_some']
  rw [finditer_fold attrs ((attrsToXml attrs).length + 1) 0 []
    (by have := attrsToXml_length_ge attrs; omega) hwf hnd (by simp [hasKey])]
  by_cases haz : attrs = []
  · subst haz
    simp
  · simp [haz]

theorem validName_chars {nm : Str} (h : validNameB nm = true) :
    ∀ c ∈ nm, isNameChar c = true := by
  cases nm with
  | nil => simp
  | cons c cs =>
    simp only [validNameB, Bool.and_eq_true, List.all_eq_true] at h
    intro d hd
    rcases List.mem_cons.mp hd with rfl | hmem
    · have hs := h.1
      simp only [isNameStrt, decide_eq_true_eq] at hs
      simp only [isNameChar, decide_eq_true_eq]
      tauto
    · exact h.2 d hmem

theorem validName_no_slash {nm : Str} (h : validNameB nm = true) :
    ∀ c ∈ nm, c ≠ '/' := by
  intro c hc
  have := validName_chars h c hc
  rintro rfl
  exact absurd this (by decide)

theorem dropWhile_all_false {p : Char → Bool} {l : Str}
    (h : ∀ c ∈ l, p c = false) : l.dropWhile p = l := by
  cases l with
  | nil => rfl
  | cons c r =>
    rw [List.dropWhile_cons, if_neg]
    rw [h c (by simp)]
    simp

theorem pyStrip_id {l : Str} (h : ∀ c ∈ l, isPySpace c = false) : pyStrip l = l := by
  unfold pyStrip pyLstrip pyRstrip
  rw [dropWhile_all_false h]
  rw [dropWhile_all_false (fun c hc => h c (List.mem_reverse.mp hc))]
  simp

theorem splitSlash_no_slash {l : Str} (h : ∀ c ∈ l, c ≠ '/') :
    splitSlash l = [l] := by
  induction l with
  | nil => rfl
  | cons c r ih =>
    unfold splitSlash
    rw [if_neg (h c (by simp))]
    rw [ih (fun d hd => h d (by simp [hd]))]

theorem mkEnd_render (nm : Str) (hnm : validNameB nm = true) :
    mkEnd (endRender nm) = some ⟨nm, endRender nm⟩ := by
  have hns : ∀ c ∈ nm ++ ['>'], c ≠ '/' := by
    intro c hc
    rcases List.mem_append.mp hc with hm | hm
    · exact validName_no_slash hnm c hm
    · simp at hm
      subst hm
      decide
  have hsplit : splitSlash ('<' :: '/' :: (nm ++ ['>'])) = [['<'], nm ++ ['>']] := by
    unfold splitSlash
    rw [if_neg (by decide)]
    unfold splitSlash
    rw [if_pos rfl]
    rw [splitSlash_no_slash hns]
  unfold mkEnd endRender
  rw [hsplit]
  simp only [List.drop_succ_cons, List.drop_zero]
  have hdl : (nm ++ ['>']).dropLast = nm := by
    simp
  rw [hdl, pyStrip_id (fun c hc => isPySpace_false_of_nameChar (validName_chars hnm c hc))]

theorem attrsToXml_no_slash {attrs : List (Str × Str)}
    (hwf : ∀ kv ∈ attrs, attrPairOk kv) :
    ∀ c ∈ attrsToXml attrs, c ≠ '/' := by
  induction attrs with
  | nil => simp [attrsToXml]
  | cons kv tl ih =>
    obtain ⟨k, v⟩ := kv
    have hpair : attrPairOk (k, v) := hwf _ (by simp)
    have hq : escAttValue v = v :=
      escAttValue_id (fun c hc => ((hpair.2 c hc).2.1))
    intro c hc
    rw [attrsToXml_cons tl hq] at hc
    simp only [List.mem_cons, List.mem_append] at hc
    rcases hc with rfl | hc
    · decide
    rcases hc with hc | hc
    · exact validName_no_slash hpair.1 c hc
    rcases hc with rfl | hc
    · decide
    rcases hc with rfl | hc
    · decide
    rcases hc with hc | hc
    · exact (hpair.2 c hc).2.2
    rcases hc with rfl | hc
    · decide
    · exact ih (fun kv hkv => hwf kv (by simp [hkv])) c hc

theorem startRender_filter_slash (nm : Str) (attrs : List (Str × Str))
    (hnm : validNameB nm = true)
    (hwf : ∀ kv ∈ attrs, attrPairOk kv) :
    (startRender nm attrs).filter (· ≠ '/') = startRender nm attrs := by
  apply List.filter_eq_self.mpr
  intro a ha
  simp only [decide_eq_true_eq]
  unfold startRender at ha
  simp only [List.mem_cons, List.mem_append] at ha
  rcases ha with rfl | ha
  · decide
  rcases ha with ⟨ha | ha⟩ | ha
  · exact validName_no_slash hnm a ha
  · exact attrsToXml_no_slash hwf a ha
  · simp at ha
    subst ha
    decide

/-- C1, witness. -/
theorem c1_roundtrip_canonical_witness :
    tokenize ("<p a=\"1\">ok</p>".toList) =
      .ok [.start ⟨"p".toList, [("a".toList, "1".toList)], "<p a=\"1\">".toList⟩,
           .text ("ok".toList), .endTag ⟨"p".toList, "</p>".toList⟩] ∧
    (∀ cp ∈ chunksPos ("<p a=\"1\">ok</p>".toList), canonStableAt cp = true) ∧
    concat_tokens [Token.start ⟨"p".toList, [("a".toList, "1".toList)], "<p a=\"1\">".toList⟩,
        Token.text ("ok".toList), Token.endTag ⟨"p".toList, "</p>".toList⟩] =
      "<p a=\"1\">ok</p>".toList :=
  ⟨by decide, by decide,
    c1_roundtrip_canonical _ _ (by decide) (by decide)⟩

theorem attrsWfB_pairs {attrs : List (Str × Str)} (h : attrsWfB attrs = true) :
    (∀ kv ∈ attrs, attrPairOk kv) ∧ nodupKeysB attrs = true := by
  simp only [attrsWfB, Bool.and_eq_true, List.all_eq_true] at h
  refine ⟨fun kv hkv => ?_, h.2⟩
  have hp := h.1 kv hkv
  simp only [Bool.and_eq_true, List.all_eq_true, decide_eq_true_eq] at hp
  exact ⟨hp.1, hp.2⟩

/-- C5, counterexample to the unconditional claim. Expanding the `Empty`
tag `<a b="/"/>` with an empty keep-set does not preserve its attributes:
the slash removal `token.xml.replace(..)` in `expand_empty_tags` deletes
every `/` of the reserialized tag, including the one inside the attribute
value, so the resulting `Start` token carries `b=""` instead of `b="/"`. -/
theorem c5_counterexample :
    mkSTag true ("<a b=\"/\"/>".toList) =
      some ⟨"a".toList, [("b".toList, "/".toList)], "<a b=\"/\"/>".toList⟩ ∧
    expandTok []
        (.empty ⟨"a".toList, [("b".toList, "/".toList)], "<a b=\"/\"/>".toList⟩) =
      .ok [.start ⟨"a".toList, [("b".toList, [])], "<a b=\"\">".toList⟩,
           .endTag ⟨"a".toList, "</a>".toList⟩] := by
  refine ⟨by decide, by decide⟩

/-- **C5** (amended). For every `Empty` token whose name is a valid XML
name and whose attribute list has valid names, duplicate-free keys and
values containing none of `<`, `"`, `/`, the empty-tag expansion filter
rewrites the token into the canonical `Start` token of the same name and
attributes followed by the matching `End` tag of that name — unless the
keep-set is non-empty and contains the name, in which case the `Empty`
token passes through unchanged. Without the slash-free restriction on
attribute values the spec claim fails (attributes are not preserved), as
the counterexample shows. -/
theorem c5_expand_empty (t : STag) (keep : List Str)
    (hnm : validNameB t.name = true)
    (ha : attrsWfB t.attributes = true) :
    expandTok keep (.empty t) =
      (if ¬ keep.isEmpty ∧ t.name ∈ keep then .ok [.empty t]
       else .ok [.start ⟨t.name, t.attributes, startRender t.name t.attributes⟩,
                 .endTag ⟨t.name, endRender t.name⟩]) := by
  obtain ⟨hwf, hnd⟩ := attrsWfB_pairs ha
  show (if ¬ keep.isEmpty ∧ t.name ∈ keep then Except.ok [Token.empty t]
    else
      match mkSTag false ((startRender t.name t.attributes).filter (· ≠ '/')),
        mkEnd (endRender t.name) with
      | some s, some e => .ok [.start s, .endTag e]
      | _, _ => .error ()) = _
  by_cases hk : ¬ keep.isEmpty ∧ t.name ∈ keep
  · rw [if_pos hk, if_pos hk]
  · rw [if_neg hk, if_neg hk]
    rw [startRender_filter_slash t.name t.attributes hnm hwf,
        mkSTag_render t.name t.attributes hnm hwf hnd,
        mkEnd_render t.name hnm]

/-- C5, witness: the spec's two concrete examples. `<a/>` with an empty
keep-set becomes `<a>`, `</a>`; with keep-set `{a}` it stays `<a/>`. -/
theorem c5_expand_empty_witness :
    validNameB ("a".toList) = true ∧
    attrsWfB ([] : List (Str × Str)) = true ∧
    expandTok [] (.empty ⟨"a".toList, [], "<a/>".toList⟩) =
      .ok [.start ⟨"a".toList, [], "<a>".toList⟩,
           .endTag ⟨"a".toList, "</a>".toList⟩] ∧
    expandTok ["a".toList] (.empty ⟨"a".toList, [], "<a/>".toList⟩) =
      .ok [.empty ⟨"a".toList, [], "<a/>".toList⟩] :=
  ⟨by decide, by decide,
   (c5_expand_empty ⟨"a".toList, [], "<a/>".toList⟩ []
     (by decide) (by decide)).trans (by decide),
   (c5_expand_empty ⟨"a".toList, [], "<a/>".toList⟩ ["a".toList]
     (by decide) (by decide)).trans (by decide)⟩

end Rexlib
